/-
Verification development for the web-archiver backend core: the URL utilities
and the reference rewriter (src/backend/src/utils), the file-service path
scheme, the crawler loop (src/backend/src/services/crawler-service.ts) and the
archive orchestrator (archive-service).  JavaScript strings are embedded as
Lean strings, with the JS string primitives modelled on the character list.
-/
import Mathlib

namespace WebArchiver

/-- JS whitespace test covering the characters relevant to `String.prototype.trim`
for the inputs in this development (space, tab, newline, carriage return,
vertical tab, form feed). -/
def jsWhitespaceChar (c : Char) : Bool :=
  c = ' ' || c = '\t' || c = '\n' || c = '\r' || c = '\x0b' || c = '\x0c'

/-- ASCII lower-casing of one character, as `String.prototype.toLowerCase`
acts on ASCII. -/
def lowerChar (c : Char) : Char :=
  if 'A' ≤ c ∧ c ≤ 'Z' then Char.ofNat (c.toNat + 32) else c

def lowerCL (l : List Char) : List Char := l.map lowerChar

/-- Drop trailing JS whitespace from a character list. -/
def trimRightCL : List Char → List Char
  | [] => []
  | c :: cs =>
    let r := trimRightCL cs
    if r = [] then (if jsWhitespaceChar c then [] else [c]) else c :: r

/-- Model of `String.prototype.trim` on character lists. -/
def trimCL (l : List Char) : List Char := trimRightCL (l.dropWhile jsWhitespaceChar)

/-- Does `l` begin with the pattern `p`? (`String.prototype.startsWith`). -/
def startsWithCL : List Char → List Char → Bool
  | _, [] => true
  | [], _ :: _ => false
  | c :: cs, p :: ps => p == c && startsWithCL cs ps

/-- Does `l` contain `sub` as a contiguous substring? (`String.prototype.includes`). -/
def containsCL : List Char → List Char → Bool
  | [], sub => sub.isEmpty
  | c :: cs, sub => startsWithCL (c :: cs) sub || containsCL cs sub

def endsWithCL (l p : List Char) : Bool := startsWithCL l.reverse p.reverse

def jsTrim (s : String) : String := String.mk (trimCL s.data)

def jsToLower (s : String) : String := String.mk (lowerCL s.data)

def jsStartsWith (s p : String) : Bool := startsWithCL s.data p.data

def jsEndsWith (s p : String) : Bool := endsWithCL s.data p.data

def jsIncludes (s sub : String) : Bool := containsCL s.data sub.data

def strDrop (s : String) (n : Nat) : String := String.mk (s.data.drop n)

def strTake (s : String) (n : Nat) : String := String.mk (s.data.take n)

/-- Strip trailing slash characters (used by the Node `path.basename` model). -/
def dropTrailingSlashesCL (l : List Char) : List Char :=
  (l.reverse.dropWhile (· == '/')).reverse

/-- The characters after the last slash. -/
def lastSegmentCL (l : List Char) : List Char :=
  (l.reverse.takeWhile (· != '/')).reverse

/-- Model of Node `path.basename` (posix): ignore trailing slashes, then take
the last path segment. -/
def pathBasename (s : String) : String :=
  String.mk (lastSegmentCL (dropTrailingSlashesCL s.data))

/-- Extension of a base name: from the last dot to the end, empty when there is
no dot or the only dot begins the name.  Agrees with Node `path.extname` on all
names except the degenerate all-dot names such as `..` (which cannot arise from
a parsed URL pathname, where dot segments are collapsed). -/
def extnameCL (l : List Char) : List Char :=
  let b := lastSegmentCL (dropTrailingSlashesCL l)
  let r := b.reverse
  let pre := r.takeWhile (· != '.')
  if pre.length + 1 < b.length then (r.take (pre.length + 1)).reverse else []

/-- Model of Node `path.extname`. -/
def pathExtname (s : String) : String := String.mk (extnameCL s.data)

/-- Model of Node `path.basename(p, ext)`: the base name with the suffix `ext`
removed when it is a proper suffix. -/
def pathBasenameExt (s ext : String) : String :=
  let b := pathBasename s
  if ext ≠ "" ∧ b ≠ ext ∧ jsEndsWith b ext = true then
    String.mk (b.data.take (b.data.length - ext.data.length))
  else b

/-- Split a character list on every slash; always non-empty (splitting the
empty list yields one empty segment). -/
def splitSlash : List Char → List (List Char)
  | [] => [[]]
  | c :: cs =>
    let r := splitSlash cs
    if c = '/' then [] :: r
    else
      match r with
      | [] => [[c]]
      | seg :: rest => (c :: seg) :: rest

/-- Rejoin segments with slashes (left inverse of `splitSlash`). -/
def joinSegsCL : List (List Char) → List Char
  | [] => []
  | [x] => x
  | x :: rest => x ++ '/' :: joinSegsCL rest

/-- A plain path segment: non-empty and not a dot segment. -/
def goodSegB (seg : List Char) : Bool :=
  !seg.isEmpty && !(seg == ['.']) && !(seg == ['.', '.'])

/-- One step of Node `path.normalize`'s segment pass: drop empty and `.`
segments, resolve `..` against the (reversed) stack. -/
def normStackCL (stack : List (List Char)) (seg : List Char) : List (List Char) :=
  if seg = [] ∨ seg = ['.'] then stack
  else if seg = ['.', '.'] then
    match stack with
    | [] => [seg]
    | t :: ts => if t = ['.', '.'] then seg :: stack else ts
  else seg :: stack

/-- Drop `..` segments that would climb above the root of an absolute path. -/
def dropLeadingDotDot : List (List Char) → List (List Char)
  | [] => []
  | s :: rest => if s = ['.', '.'] then dropLeadingDotDot rest else s :: rest

/-- Model of posix `path.normalize`: resolve empty and dot segments, keep one
leading slash for absolute paths and a trailing slash when the input had one,
and return `.` (or `/`) when nothing remains. -/
def posixNormalizeCL (l : List Char) : List Char :=
  let isAbs := l.head? = some '/'
  let core0 := ((splitSlash l).foldl normStackCL []).reverse
  let core := if isAbs then dropLeadingDotDot core0 else core0
  let body := joinSegsCL core
  let withTrail := if endsWithCL l ['/'] = true ∧ body ≠ [] then body ++ ['/'] else body
  let withAbs := if isAbs then '/' :: withTrail else withTrail
  if withAbs = [] then ['.'] else withAbs

/-- Model of Node `path.join` on two components: empty arguments are skipped,
the rest are joined with a slash and the result is normalized (so doubled
slashes collapse and dot segments resolve, as in `path.join`). -/
def pathJoin2 (a b : String) : String :=
  if a = "" ∧ b = "" then "."
  else if a = "" then String.mk (posixNormalizeCL b.data)
  else if b = "" then String.mk (posixNormalizeCL a.data)
  else String.mk (posixNormalizeCL (a.data ++ '/' :: b.data))

/-- `path.join(a, b, c)`, folded pairwise (which agrees with the variadic call
on the arguments the sources pass). -/
def pathJoin3 (a b c : String) : String := pathJoin2 (pathJoin2 a b) c

/-- Segment-wise cleanliness of a relative path: every segment is plain
(`goodSegB`), except that the final segment may be empty (a trailing slash). -/
def cleanSegsB : List (List Char) → Bool
  | [] => true
  | [seg] => seg.isEmpty || goodSegB seg
  | seg :: rest => goodSegB seg && cleanSegsB rest

/-- UTF-8 bytes of one character (standard encoding by code point). -/
def utf8BytesChar (c : Char) : List Nat :=
  let n := c.toNat
  if n < 128 then [n]
  else if n < 2048 then [192 + n / 64, 128 + n % 64]
  else if n < 65536 then [224 + n / 4096, 128 + (n / 64) % 64, 128 + n % 64]
  else [240 + n / 262144, 128 + (n / 4096) % 64, 128 + (n / 64) % 64, 128 + n % 64]

def utf8Bytes (s : String) : List Nat := (s.data.map utf8BytesChar).flatten

def base64Chars : List Char :=
  "ABCDEFGHIJKLMNOPQRSTUVWXYZabcdefghijklmnopqrstuvwxyz0123456789+/".data

def base64Digit (n : Nat) : Char := base64Chars.getD n 'A'

/-- Standard base64 of a byte list, with padding, three bytes at a time. -/
def base64Groups : List Nat → List Char
  | [] => []
  | [b1] => [base64Digit (b1 / 4), base64Digit ((b1 % 4) * 16), '=', '=']
  | [b1, b2] =>
    [base64Digit (b1 / 4), base64Digit ((b1 % 4) * 16 + b2 / 16),
     base64Digit ((b2 % 16) * 4), '=']
  | b1 :: b2 :: b3 :: rest =>
    base64Digit (b1 / 4) :: base64Digit ((b1 % 4) * 16 + b2 / 16) ::
    base64Digit ((b2 % 16) * 4 + b3 / 64) :: base64Digit (b3 % 64) ::
    base64Groups rest

/-- Model of `Buffer.from(s).toString(base64)`. -/
def base64encode (s : String) : String := String.mk (base64Groups (utf8Bytes s))

/-- Parsed URL, the shallow model of the WHATWG `URL` object for `http:` and
`https:` URLs: scheme without the colon, lower-cased host, optional port
digits, pathname beginning with a slash, and the query and fragment components
(`none` when the `?` or `#` is absent altogether). -/
structure Url where
  scheme : String
  host : String
  port : String
  pathname : String
  query : Option String
  fragment : Option String
deriving DecidableEq, Repr

/-- The `search` accessor: empty when the query is absent or empty, otherwise
the query with its question mark. -/
def Url.search (u : Url) : String :=
  match u.query with
  | none => ""
  | some q => if q = "" then "" else "?" ++ q

/-- The `hash` accessor. -/
def Url.hashOf (u : Url) : String :=
  match u.fragment with
  | none => ""
  | some f => if f = "" then "" else "#" ++ f

/-- The `href` serialization. -/
def Url.toString (u : Url) : String :=
  u.scheme ++ "://" ++ u.host ++ (if u.port = "" then "" else ":" ++ u.port) ++
  u.pathname ++
  (match u.query with | none => "" | some q => "?" ++ q) ++
  (match u.fragment with | none => "" | some f => "#" ++ f)

def isDigitChar (c : Char) : Bool := '0' ≤ c && c ≤ '9'

def isAsciiAlpha (c : Char) : Bool := ('a' ≤ c && c ≤ 'z') || ('A' ≤ c && c ≤ 'Z')

def isSchemeChar (c : Char) : Bool :=
  isAsciiAlpha c || isDigitChar c || c == '+' || c == '-' || c == '.'

/-- Does the input begin with a scheme (letter, scheme characters, colon)?
Used to tell absolute references with a non-http scheme from relative paths. -/
def hasSchemeCL (l : List Char) : Bool :=
  let pre := l.takeWhile isSchemeChar
  !pre.isEmpty &&
  (match pre.head? with | some c => isAsciiAlpha c | none => false) &&
  (l.drop pre.length).head? == some ':'

/-- Split path, query and fragment off the part of a URL that follows the
authority. -/
def splitPathQueryFrag (l : List Char) : String × Option String × Option String :=
  let path := l.takeWhile (fun c => c != '?' && c != '#')
  let rest := l.drop path.length
  let query :=
    if rest.head? = some '?' then some (String.mk ((rest.drop 1).takeWhile (· != '#')))
    else none
  let rest2 :=
    if rest.head? = some '?' then rest.drop (1 + ((rest.drop 1).takeWhile (· != '#')).length)
    else rest
  let fragment :=
    if rest2.head? = some '#' then some (String.mk (rest2.drop 1)) else none
  (String.mk path, query, fragment)

/-- Model of `new URL(input)` restricted to absolute `http:`/`https:` URLs in
lower-case scheme spelling, without userinfo, IPv6 brackets, percent-encoding
normalization or dot-segment collapsing — the fragment of WHATWG parsing the
archiver sources exercise.  Inputs outside that fragment parse to `none`
(modelling a thrown `TypeError`). -/
def parseUrlCL (l0 : List Char) : Option Url :=
  let l := trimCL l0
  let scheme :=
    if startsWithCL l "http://".data then "http"
    else if startsWithCL l "https://".data then "https"
    else ""
  let rest := if scheme = "http" then l.drop 7 else l.drop 8
  if scheme = "" then none
  else
    let auth := rest.takeWhile (fun c => c != '/' && c != '?' && c != '#')
    let rest1 := rest.drop auth.length
    if auth = [] then none
    else if auth.contains '@' then none
    else
      let host := auth.takeWhile (· != ':')
      let portPart := auth.drop host.length
      let port := portPart.drop 1
      if host = [] then none
      else if portPart ≠ [] ∧ ¬ (port.all isDigitChar = true) then none
      else
        let portStr := String.mk port
        let portNorm :=
          if (scheme = "http" ∧ portStr = "80") ∨ (scheme = "https" ∧ portStr = "443")
          then "" else portStr
        let (pathRaw, query, fragment) := splitPathQueryFrag rest1
        let pathname := if pathRaw = "" then "/" else pathRaw
        some { scheme := scheme
               host := String.mk (lowerCL host)
               port := portNorm
               pathname := pathname
               query := query
               fragment := fragment }

def parseUrl (s : String) : Option Url := parseUrlCL s.data

/-- The directory part of a pathname: everything up to and including the last
slash. -/
def dirOfPathCL (l : List Char) : List Char :=
  (l.reverse.dropWhile (· != '/')).reverse

/-- Model of `new URL(url, base)`: an absolute `http(s)` input wins; an input
with any other scheme is modelled as unresolvable; otherwise the reference is
resolved against the parsed base (protocol-relative, absolute-path, query,
fragment, or relative-path merge) without dot-segment collapsing. -/
def urlResolve (url base : String) : Option Url :=
  match parseUrl url with
  | some u => some u
  | none =>
    if hasSchemeCL (trimCL url.data) then none
    else
      match parseUrl base with
      | none => none
      | some b =>
        let l := trimCL url.data
        if l = [] then some { b with fragment := none }
        else if startsWithCL l "//".data then parseUrlCL ((b.scheme ++ ":").data ++ l)
        else if l.head? = some '/' then
          let (p, q, f) := splitPathQueryFrag l
          some { b with pathname := p, query := q, fragment := f }
        else if l.head? = some '?' then
          let (_, q, f) := splitPathQueryFrag l
          some { b with query := q, fragment := f }
        else if l.head? = some '#' then
          some { b with fragment := some (String.mk (l.drop 1)) }
        else
          let (p, q, f) := splitPathQueryFrag l
          some { b with
            pathname := String.mk (dirOfPathCL b.pathname.data) ++ p
            query := q
            fragment := f }

namespace UrlUtils

/-- `isValidUrl` from url-utils: the input parses and its protocol is `http:`
or `https:` (our parser only produces these, matching the check). -/
def isValidUrl (s : String) : Bool :=
  match parseUrl s with
  | some u => u.scheme == "http" || u.scheme == "https"
  | none => false

/-- `extractDomain` from url-utils: the hostname, or `none` on a parse
failure. -/
def extractDomain (s : String) : Option String := (parseUrl s).map (·.host)

/-- `isSameDomain` from url-utils. -/
def isSameDomain (a b : String) : Bool :=
  match extractDomain a, extractDomain b with
  | some d1, some d2 => d1 == d2
  | _, _ => false

/-- `normalizeUrl` from url-utils: parse, clear the fragment, serialize.  (The
source's conditional on the root path returns `url.toString()` in both
branches, so it is folded away here.) -/
def normalizeUrl (s : String) : Option String :=
  match parseUrl s with
  | none => none
  | some u => some (Url.toString { u with fragment := none })

/-- `resolveUrl` from url-utils. -/
def resolveUrl (rel base : String) : Option String :=
  (urlResolve rel base).map Url.toString

end UrlUtils

/-- The `AssetType` enum from the backend types. -/
inductive AssetType
  | html
  | css
  | javascript
  | image
  | font
  | other
deriving DecidableEq, Repr

/-- The `ArchiveStatus` enum.  The PARTIAL value is spelled `partialStatus`
because `partial` is a Lean keyword. -/
inductive ArchiveStatus
  | in_progress
  | completed
  | failed
  | partialStatus
deriving DecidableEq, Repr

/-- The `ErrorType` enum. -/
inductive ErrorType
  | network_error
  | content_error
  | storage_error
  | validation_error
  | timeout_error
  | permission_error
deriving DecidableEq, Repr

/-- `UrlRewriteOptions` from url-rewriter; the `archiveBasePath` default
`/api/archives` of the constructor is a plain field here, filled in by
`UrlRewriter.mkOptions` when absent. -/
structure UrlRewriteOptions where
  archiveId : String
  baseUrl : String
  archiveBasePath : String
deriving DecidableEq, Repr

/-- The constructor default for `archiveBasePath`. -/
def UrlRewriter.mkOptions (archiveId baseUrl : String) : UrlRewriteOptions :=
  { archiveId := archiveId, baseUrl := baseUrl, archiveBasePath := "/api/archives" }

/-- `AssetPathMapping` from url-rewriter. -/
structure AssetPathMapping where
  originalUrl : String
  localPath : String
  assetType : AssetType
deriving DecidableEq, Repr

/-- The rewriter's `assetMappings` JS `Map`, modelled as a list where
`addAssetMapping` replaces any earlier entry for the same key. -/
def addAssetMapping (m : List AssetPathMapping) (x : AssetPathMapping) :
    List AssetPathMapping :=
  x :: m.filter (fun y => y.originalUrl ≠ x.originalUrl)

/-- `assetMappings.get`. -/
def findMapping (m : List AssetPathMapping) (k : String) : Option AssetPathMapping :=
  m.find? (fun x => x.originalUrl == k)

namespace UrlRewriter

/-- `UrlRewriter.isSpecialUrl`. -/
def isSpecialUrl (url : String) : Bool :=
  let trimmedUrl := jsToLower (jsTrim url)
  jsStartsWith trimmedUrl "data:" || jsStartsWith trimmedUrl "blob:" ||
  jsStartsWith trimmedUrl "javascript:" || jsStartsWith trimmedUrl "mailto:" ||
  jsStartsWith trimmedUrl "tel:" || jsStartsWith trimmedUrl "#" || trimmedUrl == ""

/-- `UrlRewriter.resolveUrl`: absolute `http(s)` inputs pass through, anything
else is resolved against `baseUrl`, falling back to the input when resolution
throws. -/
def resolveUrl (opts : UrlRewriteOptions) (url : String) : String :=
  if jsStartsWith url "http://" || jsStartsWith url "https://" then url
  else
    match urlResolve url opts.baseUrl with
    | some u => u.toString
    | none => url

/-- `UrlRewriter.isSameDomain`: hostname equality of the input and the base
URL, false when either fails to parse. -/
def isSameDomain (opts : UrlRewriteOptions) (url : String) : Bool :=
  match parseUrl url, parseUrl opts.baseUrl with
  | some u, some b => u.host == b.host
  | _, _ => false

/-- `UrlRewriter.detectAssetType`: classify by the lower-cased extension of
the file name (the pathname argument of the source is unused by its body). -/
def detectAssetType (fileName : String) (_pathname : String) : AssetType :=
  let ext := jsToLower (pathExtname fileName)
  if ext = ".css" then .css
  else if ext = ".js" ∨ ext = ".mjs" ∨ ext = ".jsx" then .javascript
  else if ext = ".jpg" ∨ ext = ".jpeg" ∨ ext = ".png" ∨ ext = ".gif" ∨ ext = ".svg" ∨
          ext = ".webp" ∨ ext = ".bmp" ∨ ext = ".ico" then .image
  else if ext = ".woff" ∨ ext = ".woff2" ∨ ext = ".ttf" ∨ ext = ".otf" ∨ ext = ".eot"
    then .font
  else if ext = ".html" ∨ ext = ".htm" then .html
  else .other

/-- `UrlRewriter.getAssetSubDirectory` (HTML maps to `pages`). -/
def getAssetSubDirectory : AssetType → String
  | .css => "css"
  | .javascript => "js"
  | .image => "images"
  | .font => "fonts"
  | .html => "pages"
  | .other => "other"

/-- The `path.basename(pathname) || index` file name shared by the asset-path
generators. -/
def fileNameOfPathname (pathname : String) : String :=
  let b := pathBasename pathname
  if b = "" then "index" else b

/-- Body of `UrlRewriter.generateAssetPath` on a parsed URL. -/
def generateAssetPathOfUrl (u : Url) : String :=
  let fileName := fileNameOfPathname u.pathname
  let assetType := detectAssetType fileName u.pathname
  let subDir := getAssetSubDirectory assetType
  let finalFileName :=
    if u.search ≠ "" then
      let queryHash := strTake (base64encode u.search) 8
      let ext := pathExtname fileName
      let name := pathBasenameExt fileName ext
      name ++ "_" ++ queryHash ++ ext
    else fileName
  pathJoin3 "assets" subDir finalFileName

/-- `UrlRewriter.generateAssetPath`, with its catch-all fallback. -/
def generateAssetPath (url : String) : String :=
  match parseUrl url with
  | some u => generateAssetPathOfUrl u
  | none => "assets/other/unknown"

/-- Body of `UrlRewriter.generatePagePath` on a pathname. -/
def generatePagePathOfPathname (pathname0 : String) : String :=
  let pathname := if jsStartsWith pathname0 "/" then strDrop pathname0 1 else pathname0
  if pathname = "" ∨ pathname = "/" then "index.html"
  else if jsEndsWith pathname "/" then pathJoin2 pathname "index.html"
  else if pathExtname pathname = "" then pathJoin2 pathname "index.html"
  else pathname

/-- `UrlRewriter.generatePagePath`, with its catch fallback `index.html`. -/
def generatePagePath (url : String) : String :=
  match parseUrl url with
  | some u => generatePagePathOfPathname u.pathname
  | none => "index.html"

/-- `UrlRewriter.rewriteUrl`.  The body's helpers all catch their own
exceptions, so the source's outer try/catch never fires; the embedding is the
straight-line decision chain. -/
def rewriteUrl (opts : UrlRewriteOptions) (mappings : List AssetPathMapping)
    (url : String) (isPageLink : Bool) : String :=
  if url = "" ∨ jsTrim url = "" then url
  else if isSpecialUrl url then url
  else
    let resolvedUrl := resolveUrl opts url
    match findMapping mappings resolvedUrl with
    | some mapping =>
      opts.archiveBasePath ++ "/" ++ opts.archiveId ++ "/content/" ++ mapping.localPath
    | none =>
      if isPageLink && isSameDomain opts resolvedUrl then
        opts.archiveBasePath ++ "/" ++ opts.archiveId ++ "/content/pages/" ++
          generatePagePath resolvedUrl
      else if isSameDomain opts resolvedUrl then
        opts.archiveBasePath ++ "/" ++ opts.archiveId ++ "/content/" ++
          generateAssetPath resolvedUrl
      else url

end UrlRewriter

namespace FileService

/-- `FileService.getAssetSubDirectory`: the switch has no HTML case, so HTML
assets fall to the `other` default (unlike the rewriter's version). -/
def getAssetSubDirectory : AssetType → String
  | .css => "css"
  | .javascript => "js"
  | .image => "images"
  | .font => "fonts"
  | _ => "other"

/-- `FileService.getCorrectExtension` (call sites always pass both
arguments). -/
def getCorrectExtension (assetType : AssetType) (fileName : String) : String :=
  match assetType with
  | .css => ".css"
  | .javascript => ".js"
  | .image =>
    let ext := jsToLower (pathExtname fileName)
    if ext = ".jpg" ∨ ext = ".jpeg" ∨ ext = ".png" ∨ ext = ".gif" ∨ ext = ".svg" ∨
       ext = ".webp" ∨ ext = ".bmp" ∨ ext = ".ico" then ext
    else ".png"
  | .font =>
    let ext := jsToLower (pathExtname fileName)
    if ext = ".woff" ∨ ext = ".woff2" ∨ ext = ".ttf" ∨ ext = ".otf" ∨ ext = ".eot"
      then ext
    else ".woff"
  | .html => ".html"
  | .other => if pathExtname fileName = "" then ".bin" else pathExtname fileName

/-- Body of `FileService.generateAssetFileName` on a parsed URL. -/
def generateAssetFileNameOfUrl (u : Url) (assetType : AssetType) : String :=
  let fileName := UrlRewriter.fileNameOfPathname u.pathname
  let correctExtension := getCorrectExtension assetType fileName
  if u.search ≠ "" then
    let queryHash := strTake (base64encode u.search) 8
    let name := pathBasenameExt fileName (pathExtname fileName)
    name ++ "_" ++ queryHash ++ correctExtension
  else if jsToLower (pathExtname fileName) = correctExtension then fileName
  else (pathBasenameExt fileName (pathExtname fileName)) ++ correctExtension

/-- The relative path `saveAsset` stores an asset under, given its parsed
URL. -/
def assetRelativePathOfUrl (u : Url) (assetType : AssetType) : String :=
  pathJoin3 "assets" (getAssetSubDirectory assetType) (generateAssetFileNameOfUrl u assetType)

/-- The relative path returned by `FileService.saveAsset` (`none` models the
`new URL` throw of `generateAssetFileName` on an unparseable URL, which
`saveAsset` propagates). -/
def saveAssetPath (url : String) (assetType : AssetType) : Option String :=
  (parseUrl url).map (fun u => assetRelativePathOfUrl u assetType)

end FileService

namespace CrawlerService

/-- Body of the crawler's private `generatePagePath` on a pathname: any dot
anywhere in a non-slash-terminated path counts as an extension. -/
def generatePagePathOfPathname (p : String) : String :=
  if p = "/" ∨ p = "" then "index.html"
  else if jsIncludes p "." ∧ ¬ (jsEndsWith p "/" = true) then
    (if jsStartsWith p "/" then strDrop p 1 else p)
  else
    let p2 := if jsEndsWith p "/" then p ++ "index.html" else p ++ "/index.html"
    if jsStartsWith p2 "/" then strDrop p2 1 else p2

/-- The crawler's `generatePagePath`.  The catch branch of the source returns
a `page_{Date.now()}.html` name; the timestamp is modelled as 0 (the branch is
unreachable for the parsed URLs the crawl loop feeds in). -/
def generatePagePath (url : String) : String :=
  match parseUrl url with
  | some u => generatePagePathOfPathname u.pathname
  | none => "page_0.html"

end CrawlerService

namespace SpecRule

/-- The page-path rule as the spec states it (section 4.1): root maps to
`index.html`; a path ending in a slash gets `index.html` appended; a path
whose last segment has no extension gets `/index.html` appended; any other
path is kept verbatim — in all cases with the leading slash stripped, since
the result is storage-relative. -/
def pagePath (p : String) : String :=
  let path := if jsStartsWith p "/" then strDrop p 1 else p
  if path = "" then "index.html"
  else if jsEndsWith path "/" then path ++ "index.html"
  else if pathExtname path = "" then path ++ "/index.html"
  else path

end SpecRule

/-- `Asset` from the backend types. -/
structure Asset where
  originalUrl : String
  localPath : String
  type : AssetType
  size : Nat
  contentType : String
deriving DecidableEq, Repr

/-- `ArchiveError` from the backend types; timestamps are abstract ticks. -/
structure ArchiveErrorRec where
  timestamp : Nat
  type : ErrorType
  message : String
  url : Option String
  stack : Option String
  recoverable : Bool
deriving DecidableEq, Repr

/-- `ArchivedPage` from the backend types. -/
structure ArchivedPage where
  url : String
  path : String
  title : String
  timestamp : Nat
  assets : List Asset
  links : List String
  htmlContent : Option String
deriving DecidableEq, Repr

/-- The `metadata` record of an `Archive`. -/
structure ArchiveMetadataRec where
  pageCount : Nat
  assetCount : Nat
  totalSize : Nat
  crawlDuration : Nat
deriving DecidableEq, Repr

/-- `Archive` from the backend types. -/
structure Archive where
  id : String
  url : String
  domain : String
  timestamp : Nat
  status : ArchiveStatus
  version : Nat
  metadata : ArchiveMetadataRec
  pages : List ArchivedPage
  errors : List ArchiveErrorRec
deriving DecidableEq, Repr

/-- The progress counters of `ArchiveProgress`. -/
structure ProgressCounts where
  pagesDiscovered : Nat
  pagesCrawled : Nat
  assetsDownloaded : Nat
  totalSize : Nat
deriving DecidableEq, Repr

/-- `ArchiveProgress` from archive-service. -/
structure ArchiveProgress where
  archiveId : String
  url : String
  status : ArchiveStatus
  progress : ProgressCounts
  errors : List ArchiveErrorRec
  startTime : Nat
  currentUrl : Option String
deriving DecidableEq, Repr

namespace Validation

/-- The `createArchive` helper of utils/validation: a fresh IN_PROGRESS
archive record with version 1, or `none` when validation throws. -/
def createArchiveRecord (url : String) (id : String) (now : Nat) : Option Archive :=
  if UrlUtils.isValidUrl url = false then none
  else
    match UrlUtils.extractDomain url with
    | none => none
    | some domain =>
      some { id := id
             url := url
             domain := domain
             timestamp := now
             status := ArchiveStatus.in_progress
             version := 1
             metadata := ⟨0, 0, 0, 0⟩
             pages := []
             errors := [] }

end Validation

/-- Stable insertion into a descending-by-key list. -/
def insertDescBy {α : Type} (key : α → Nat) (x : α) : List α → List α
  | [] => [x]
  | y :: ys => if key y < key x then x :: y :: ys else y :: insertDescBy key x ys

/-- Stable insertion sort, descending by key (models the `sort` comparators
`b.version - a.version` and `b.timestamp - a.timestamp`). -/
def sortDescBy {α : Type} (key : α → Nat) : List α → List α
  | [] => []
  | x :: xs => insertDescBy key x (sortDescBy key xs)

/-- `Math.max(...l)` over a possibly-empty list, floored at zero. -/
def listMax (l : List Nat) : Nat := l.foldl Nat.max 0

namespace ArchiveService

/-- The whole service state: the in-memory `activeArchives` registry, the
manifest store persisted through the file service, and the configured
concurrency cap. -/
structure State where
  activeArchives : List ArchiveProgress
  store : List Archive
  maxConcurrentArchives : Nat
deriving DecidableEq, Repr

/-- `FileService.saveArchiveMetadata`: the manifest keyed by archive id is
fully rewritten. -/
def saveArchiveMetadata (store : List Archive) (a : Archive) : List Archive :=
  (store.filter (fun b => b.id ≠ a.id)) ++ [a]

/-- `getArchives`: every loadable manifest, newest first. -/
def getArchives (store : List Archive) : List Archive :=
  sortDescBy (fun a => a.timestamp) store

/-- `getArchiveVersions`: all archives whose normalized URL matches the
normalized input, sorted by version descending; `none` models the thrown
`Invalid URL` error. -/
def getArchiveVersions (store : List Archive) (url : String) : Option (List Archive) :=
  match UrlUtils.normalizeUrl url with
  | none => none
  | some normalizedUrl =>
    some (sortDescBy (fun a => a.version)
      ((getArchives store).filter (fun a => UrlUtils.normalizeUrl a.url == some normalizedUrl)))

/-- `getLatestVersionNumber`: the maximal stored version for the URL, `0` when
none exist or on any error. -/
def getLatestVersionNumber (store : List Archive) (url : String) : Nat :=
  match getArchiveVersions store url with
  | none => 0
  | some versions =>
    if versions.length > 0 then listMax (versions.map (fun v => v.version)) else 0

/-- `ArchiveService.createArchive` up to the launch of the background task,
with the generated uuid and the clock passed in explicitly.  All state
mutations happen after the three rejection checks, so a rejected call returns
only the error. -/
def createArchive (st : State) (url : String) (archiveId : String) (now : Nat) :
    Except String (State × Archive) :=
  match UrlUtils.normalizeUrl url with
  | none => .error ("Invalid URL: " ++ url)
  | some normalizedUrl =>
    match UrlUtils.extractDomain normalizedUrl with
    | none => .error ("Cannot extract domain from URL: " ++ url)
    | some _domain =>
      if st.maxConcurrentArchives ≤ st.activeArchives.length then
        .error ("Maximum concurrent archives limit reached (" ++
          Nat.repr st.maxConcurrentArchives ++
          "). Please wait for existing archives to complete.")
      else
        match st.activeArchives.find?
            (fun p => p.url == normalizedUrl && p.status == ArchiveStatus.in_progress) with
        | some _ => .error ("Archive for " ++ normalizedUrl ++ " is already in progress")
        | none =>
          let latestVersion := getLatestVersionNumber st.store normalizedUrl
          match Validation.createArchiveRecord normalizedUrl archiveId now with
          | none => .error "Invalid URL provided"
          | some archive0 =>
            let archive := { archive0 with version := latestVersion + 1 }
            let progress : ArchiveProgress :=
              { archiveId := archiveId
                url := normalizedUrl
                status := ArchiveStatus.in_progress
                progress := ⟨0, 0, 0, 0⟩
                errors := []
                startTime := now
                currentUrl := none }
            .ok ({ st with
                    activeArchives := st.activeArchives ++ [progress]
                    store := saveArchiveMetadata st.store archive }, archive)

/-- `ArchiveService.deleteArchive`: rejected while the id has an entry in the
`activeArchives` registry (whatever that entry's status), otherwise the whole
stored tree is removed. -/
def deleteArchive (st : State) (archiveId : String) : Except String State :=
  if (st.activeArchives.find? (fun p => p.archiveId == archiveId)).isSome then
    .error ("Cannot delete archive " ++ archiveId ++ ": archiving in progress")
  else
    .ok { st with store := st.store.filter (fun a => a.id ≠ archiveId) }

/-- The message of the ten-minute whole-archive deadline rejection. -/
def archiveTimeoutMessage : String := "Archive process timed out after 10 minutes"

/-- The timeout classification of the `performArchiving` catch block. -/
def isTimeoutMessage (message : String) : Bool :=
  jsIncludes message "timeout" || jsIncludes message "timed out"

/-- The catch block of `performArchiving`: classify the escaping failure,
update the progress record, and build the final archive manifest that is then
persisted. -/
def handleArchivingFailure (archive : Archive) (progress : ArchiveProgress)
    (message : String) (now : Nat) : Archive × ArchiveProgress :=
  let isTimeout := isTimeoutMessage message
  let status := if isTimeout then ArchiveStatus.partialStatus else ArchiveStatus.failed
  let err : ArchiveErrorRec :=
    { timestamp := now
      type := if isTimeout then ErrorType.timeout_error else ErrorType.network_error
      message :=
        if isTimeout then "Archive partially completed due to timeout: " ++ message
        else "Archive failed: " ++ message
      url := none
      stack := none
      recoverable := false }
  let progress1 := { progress with status := status, errors := progress.errors ++ [err] }
  let finalArchive : Archive :=
    { archive with
      status := progress1.status
      errors := progress1.errors
      metadata := { pageCount := progress1.progress.pagesCrawled
                    assetCount := progress1.progress.assetsDownloaded
                    totalSize := progress1.progress.totalSize
                    crawlDuration := now - progress1.startTime } }
  (finalArchive, progress1)

/-- The final-status derivation of the `performArchiving` success path
(line: any accumulated error means PARTIAL, otherwise COMPLETED). -/
def deriveFinalStatus (errors : List ArchiveErrorRec) : ArchiveStatus :=
  if errors.length > 0 then ArchiveStatus.partialStatus else ArchiveStatus.completed

/-- One asset download attempt, as seen by `downloadAssets`. -/
inductive DownloadOutcome
  | success (content : String)
  | failure (message : String)
deriving DecidableEq, Repr

/-- The placeholder written for an asset whose download failed. -/
def fallbackContentFor (url : String) : String :=
  "/* Failed to load asset: " ++ url ++ " */"

/-- The recoverable storage error recorded for a failed asset download. -/
def downloadErrorRec (url : String) (msg : String) (now : Nat) : ArchiveErrorRec :=
  { timestamp := now
    type := ErrorType.storage_error
    message := "Failed to download asset " ++ url ++ ": " ++ msg
    url := some url
    stack := none
    recoverable := true }

/-- The per-asset body of `downloadAssets`: on success the (possibly
CSS-rewritten) bytes are stored and `localPath`/`size` set; on failure one
recoverable storage error is recorded and the placeholder is stored instead.
A `saveAsset` throw (unparseable URL) is caught by the same handler; its
fallback save then throws too, leaving the asset untouched. -/
def downloadOneAsset (rewriteCss : String → String) (asset : Asset)
    (outcome : DownloadOutcome) (now : Nat) : Asset × List ArchiveErrorRec :=
  match outcome with
  | .success content0 =>
    let content :=
      if asset.type == AssetType.css && content0.length > 0 then rewriteCss content0
      else content0
    match FileService.saveAssetPath asset.originalUrl asset.type with
    | some localPath => ({ asset with localPath := localPath, size := content.length }, [])
    | none => (asset, [downloadErrorRec asset.originalUrl "Invalid URL" now])
  | .failure msg =>
    let err := downloadErrorRec asset.originalUrl msg now
    let fallbackContent := fallbackContentFor asset.originalUrl
    match FileService.saveAssetPath asset.originalUrl asset.type with
    | some localPath =>
      ({ asset with localPath := localPath, size := fallbackContent.length }, [err])
    | none => (asset, [err])

/-- `downloadAssets` over the collected asset list, with the per-asset
outcomes given by the network oracle; errors accumulate in order.  (The
batch-of-5 `allSettled` concurrency affects only interleaving, not the
per-asset results, so the embedding is sequential.) -/
def downloadAssets (rewriteCss : String → String) (assets : List Asset)
    (outcomes : List DownloadOutcome) (now : Nat) : List Asset × List ArchiveErrorRec :=
  match assets, outcomes with
  | [], _ => ([], [])
  | _ :: _, [] => ([], [])
  | a :: moreAssets, o :: moreOutcomes =>
    let r1 := downloadOneAsset rewriteCss a o now
    let rest := downloadAssets rewriteCss moreAssets moreOutcomes now
    (r1.1 :: rest.1, r1.2 ++ rest.2)

end ArchiveService

namespace CrawlerService

/-- What a successful page fetch yields (title, extracted assets and links,
raw markup) — the outcome of `crawlPageWithHttp` on success. -/
structure CrawlPageData where
  title : String
  assets : List Asset
  links : List String
  html : String

/-- The `ArchivedPage` built from a successful fetch. -/
def pageOfFetch (url : String) (now : Nat) (d : CrawlPageData) : ArchivedPage :=
  { url := url
    path := generatePagePath url
    title := d.title
    timestamp := now
    assets := d.assets
    links := d.links
    htmlContent := some d.html }

/-- `shouldSkipUrl`: the case-insensitive skip-list of binary/media/archive
extensions, non-content path fragments, special schemes, and fragments. -/
def shouldSkipUrl (url : String) : Bool :=
  let l := jsToLower url
  ([".pdf", ".doc", ".docx", ".xls", ".xlsx", ".ppt", ".pptx", ".zip", ".rar",
    ".tar", ".gz"].any (fun e => jsEndsWith l e)) ||
  ([".mp3", ".mp4", ".avi", ".mov", ".wmv", ".flv", ".wav", ".ogg"].any
    (fun e => jsEndsWith l e)) ||
  ([".exe", ".dmg", ".pkg", ".deb", ".rpm"].any (fun e => jsEndsWith l e)) ||
  jsIncludes l "/download/" || jsIncludes l "/api/" || jsIncludes l "/admin/" ||
  jsIncludes l "/wp-admin/" || jsIncludes l "/login" || jsIncludes l "/logout" ||
  jsIncludes l "/register" || jsIncludes l "/signup" || jsIncludes l "/cart" ||
  jsIncludes l "/checkout" || jsIncludes l "mailto:" || jsIncludes l "tel:" ||
  jsIncludes l "javascript:" || jsIncludes url "#"

/-- The filtering pass of `extractValidUrls`: normalize, deduplicate within
the batch, drop already-visited, invalid, off-domain and skip-listed URLs. -/
def collectValidUrls (visited : List String) (domain : String) :
    List String → List String → List String
  | _seen, [] => []
  | seen, link :: rest =>
    match UrlUtils.normalizeUrl link with
    | none => collectValidUrls visited domain seen rest
    | some nl =>
      if seen.contains nl then collectValidUrls visited domain seen rest
      else if visited.contains nl then collectValidUrls visited domain (nl :: seen) rest
      else if ¬ (UrlUtils.isValidUrl nl = true) then
        collectValidUrls visited domain (nl :: seen) rest
      else if ¬ (UrlUtils.extractDomain nl = some domain) then
        collectValidUrls visited domain (nl :: seen) rest
      else if shouldSkipUrl nl then collectValidUrls visited domain (nl :: seen) rest
      else nl :: collectValidUrls visited domain (nl :: seen) rest

/-- The priority key of the `extractValidUrls` comparator: queryless URLs
first, then shorter paths.  (Unparseable URLs cannot reach the comparator.) -/
def urlSortKey (s : String) : Nat × Nat :=
  match parseUrl s with
  | some u => ((if u.search = "" then 0 else 1), u.pathname.data.length)
  | none => (0, 0)

def keyLt (a b : Nat × Nat) : Bool := a.1 < b.1 || (a.1 = b.1 && a.2 < b.2)

/-- Stable insertion into an ascending-by-key list. -/
def insertAscBy {α : Type} (key : α → Nat × Nat) (x : α) : List α → List α
  | [] => [x]
  | y :: ys => if keyLt (key x) (key y) then x :: y :: ys else y :: insertAscBy key x ys

/-- Stable ascending sort by key. -/
def sortAscBy {α : Type} (key : α → Nat × Nat) : List α → List α
  | [] => []
  | x :: xs => insertAscBy key x (sortAscBy key xs)

/-- `extractValidUrls`: filter, prioritize, cap at 30 additions per page. -/
def extractValidUrls (visited : List String) (domain : String)
    (links : List String) : List String :=
  (sortAscBy urlSortKey (collectValidUrls visited domain [] links)).take 30

/-- The crawl state of one `crawlSite` run; `fetchLog` records, in order,
every URL actually handed to the HTTP fetch. -/
structure CrawlState where
  visitedUrls : List String
  crawledPages : List ArchivedPage
  errors : List ArchiveErrorRec
  urlQueue : List String
  fetchLog : List String

/-- The per-page fetch oracle: `none` models a failed fetch of any kind. -/
def FetchOracle : Type := String → Option CrawlPageData

/-- The main `crawlSite` loop: while the queue is non-empty and fewer than
`maxPages` pages are crawled, dequeue; skip if visited; otherwise mark
visited, fetch, record the page on success, and enqueue the filtered new links
(deduplicated against visited and queue) while under the page bound.  Fuel
makes the recursion structural; the loop itself terminates because the
visited set grows. -/
def crawlLoop (fetch : FetchOracle) (maxPages : Nat) (domain : String) (now : Nat) :
    Nat → CrawlState → CrawlState
  | 0, st => st
  | Nat.succ fuel, st =>
    match st.urlQueue with
    | [] => st
    | currentUrl :: rest =>
      if maxPages ≤ st.crawledPages.length then st
      else if st.visitedUrls.contains currentUrl then
        crawlLoop fetch maxPages domain now fuel { st with urlQueue := rest }
      else
        let st1 : CrawlState :=
          { st with
            urlQueue := rest
            visitedUrls := st.visitedUrls ++ [currentUrl]
            fetchLog := st.fetchLog ++ [currentUrl] }
        match fetch currentUrl with
        | some d =>
          let page := pageOfFetch currentUrl now d
          let pages2 := st1.crawledPages ++ [page]
          let st2 : CrawlState :=
            if pages2.length < maxPages then
              let newUrls := extractValidUrls st1.visitedUrls domain d.links
              let uniqueNewUrls := newUrls.filter
                (fun u => !(st1.visitedUrls.contains u) && !(rest.contains u))
              { st1 with crawledPages := pages2, urlQueue := rest ++ uniqueNewUrls }
            else { st1 with crawledPages := pages2 }
          crawlLoop fetch maxPages domain now fuel st2
        | none =>
          let err : ArchiveErrorRec :=
            { timestamp := now
              type := ErrorType.network_error
              message := "Network error: fetch failed"
              url := some currentUrl
              stack := none
              recoverable := true }
          crawlLoop fetch maxPages domain now fuel { st1 with errors := st1.errors ++ [err] }

/-- The result record of `crawlSite`, extended with the fetch log. -/
structure CrawlResultRec where
  pages : List ArchivedPage
  errors : List ArchiveErrorRec
  totalSize : Nat
  duration : Nat
  fetchLog : List String

/-- `crawlSite`: validate and normalize the start URL (a failure models the
thrown `Invalid URL` error), seed the queue, run the loop.  `duration` is
wall-clock in the source and is modelled as 0. -/
def crawlSite (fetch : FetchOracle) (fuel : Nat) (url : String) (maxPages : Nat)
    (now : Nat) : Option CrawlResultRec :=
  match UrlUtils.normalizeUrl url with
  | none => none
  | some normalizedUrl =>
    match UrlUtils.extractDomain normalizedUrl with
    | none => none
    | some domain =>
      let final := crawlLoop fetch maxPages domain now fuel
        { visitedUrls := []
          crawledPages := []
          errors := []
          urlQueue := [normalizedUrl]
          fetchLog := [] }
      some { pages := final.crawledPages
             errors := final.errors
             totalSize := (final.crawledPages.map
               (fun p => (p.assets.map (fun a => a.size)).foldl (· + ·) 0)).foldl (· + ·) 0
             duration := 0
             fetchLog := final.fetchLog }

end CrawlerService

/-! Concrete sample records used by the claim instances. -/

/-- The declared asset type matches the (lower-case) extension of the URL's
file name: the regime in which write-time and read-time asset paths agree. -/
def extTypeCompat (t : AssetType) (e : String) : Prop :=
  (t = AssetType.css ∧ e = ".css") ∨ (t = AssetType.javascript ∧ e = ".js") ∨
  (t = AssetType.image ∧
    e ∈ [".jpg", ".jpeg", ".png", ".gif", ".svg", ".webp", ".bmp", ".ico"]) ∨
  (t = AssetType.font ∧ e ∈ [".woff", ".woff2", ".ttf", ".otf", ".eot"])

deriving instance DecidableEq for Except

/-- A finished archive and its progress record, as they stand when the
background run begins. -/
def sampleArchive : Archive :=
  { id := "a1"
    url := "https://example.com/"
    domain := "example.com"
    timestamp := 1
    status := ArchiveStatus.in_progress
    version := 1
    metadata := ⟨0, 0, 0, 0⟩
    pages := []
    errors := [] }

def sampleProgress : ArchiveProgress :=
  { archiveId := "a1"
    url := "https://example.com/"
    status := ArchiveStatus.in_progress
    progress := ⟨0, 0, 0, 0⟩
    errors := []
    startTime := 0
    currentUrl := none }

def c4Asset : Asset :=
  { originalUrl := "https://example.com/bad-asset.css"
    localPath := ""
    type := AssetType.css
    size := 0
    contentType := "text/css" }

def c5State : ArchiveService.State :=
  { activeArchives := [sampleProgress], store := [], maxConcurrentArchives := 1 }

def graceArchive : Archive :=
  { id := "a1"
    url := "https://example.com/"
    domain := "example.com"
    timestamp := 1
    status := ArchiveStatus.completed
    version := 1
    metadata := ⟨1, 0, 0, 5⟩
    pages := []
    errors := [] }

/-- The orchestrator state during the one-minute grace period: the run has
finished (progress status and persisted manifest both COMPLETED) but the
registry entry has not been retired yet. -/
def graceState : ArchiveService.State :=
  { activeArchives := [{ sampleProgress with status := ArchiveStatus.completed }]
    store := [graceArchive]
    maxConcurrentArchives := 3 }

def c1Start : ArchiveService.State :=
  { activeArchives := [], store := [graceArchive], maxConcurrentArchives := 3 }

/-- The version handed out when the single stored version-1 archive for
`https://example.com/` is deleted and a new archive for the same URL is then
created. -/
def c1RecreatedVersion : Option Nat :=
  match ArchiveService.deleteArchive c1Start "a1" with
  | .error _ => none
  | .ok st1 =>
    match ArchiveService.createArchive st1 "https://example.com" "a2" 5 with
    | .error _ => none
    | .ok (_, a) => some a.version

def c7Opts : UrlRewriteOptions := UrlRewriter.mkOptions "a1" "https://example.com"

def c7Mapping : AssetPathMapping :=
  { originalUrl := "https://example.com/style.css"
    localPath := "assets/css/style.css"
    assetType := AssetType.css }

/-! Helper lemmas about the string and list primitives. -/

theorem data_append (a b : String) : (a ++ b).data = a.data ++ b.data := rfl

theorem startsWithCL_append_right {a : List Char} {p : List Char}
    (h : startsWithCL a p = true) (b : List Char) : startsWithCL (a ++ b) p = true := by
  induction p generalizing a with
  | nil => simp [startsWithCL]
  | cons c cs ih =>
    cases a with
    | nil => simp [startsWithCL] at h
    | cons d ds =>
      simp only [startsWithCL, Bool.and_eq_true] at h
      simpa [startsWithCL, h.1] using ih h.2

theorem startsWithCL_self (p t : List Char) : startsWithCL (p ++ t) p = true := by
  induction p with
  | nil => simp [startsWithCL]
  | cons c cs ih => simpa [startsWithCL] using ih

theorem containsCL_of_startsWithCL {l p : List Char}
    (h : startsWithCL l p = true) : containsCL l p = true := by
  cases l with
  | nil =>
    cases p with
    | nil => simp [containsCL]
    | cons c cs => simp [startsWithCL] at h
  | cons c cs => simp [containsCL, h]

theorem containsCL_append_left (a : List Char) {b p : List Char}
    (h : containsCL b p = true) : containsCL (a ++ b) p = true := by
  induction a with
  | nil => simpa using h
  | cons c cs ih => simp [containsCL, ih]

theorem startsWithCL_head {l p : List Char} {c : Char}
    (h : startsWithCL l (c :: p) = true) : ∃ t, l = c :: t := by
  cases l with
  | nil => simp [startsWithCL] at h
  | cons d ds =>
    simp only [startsWithCL, Bool.and_eq_true, beq_iff_eq] at h
    exact ⟨ds, by rw [h.1]⟩

theorem startsWithCL_head_ne {t p : List Char} {c d : Char} (hne : d ≠ c) :
    startsWithCL (c :: t) (d :: p) = false := by
  simp [startsWithCL, hne]

theorem trimRightCL_cons {c : Char} (t : List Char) (h : jsWhitespaceChar c = false) :
    ∃ r, trimRightCL (c :: t) = c :: r := by
  rw [trimRightCL]
  by_cases ht : trimRightCL t = []
  · exact ⟨[], by simp [ht, h]⟩
  · exact ⟨trimRightCL t, by simp [ht]⟩

theorem trimCL_cons {c : Char} (t : List Char) (h : jsWhitespaceChar c = false) :
    ∃ r, trimCL (c :: t) = c :: r := by
  rw [trimCL, List.dropWhile_cons, h]
  exact trimRightCL_cons t h

theorem le_foldl_max (l : List Nat) (a : Nat) : a ≤ l.foldl Nat.max a := by
  induction l generalizing a with
  | nil => simp
  | cons x xs ih => exact le_trans (Nat.le_max_left a x) (ih (Nat.max a x))

theorem mem_le_foldl_max {v : Nat} {l : List Nat} (h : v ∈ l) (a : Nat) :
    v ≤ l.foldl Nat.max a := by
  induction l generalizing a with
  | nil => simp at h
  | cons x xs ih =>
    rcases List.mem_cons.mp h with rfl | hv
    · exact le_trans (Nat.le_max_right a v) (le_foldl_max xs (Nat.max a v))
    · exact ih hv (Nat.max a x)

theorem foldl_max_le {l : List Nat} {a m : Nat} (ha : a ≤ m)
    (h : ∀ v ∈ l, v ≤ m) : l.foldl Nat.max a ≤ m := by
  induction l generalizing a with
  | nil => simpa using ha
  | cons x xs ih =>
    exact ih (Nat.max_le.mpr ⟨ha, h x (List.mem_cons_self x xs)⟩)
      (fun v hv => h v (List.mem_cons_of_mem x hv))

theorem le_listMax {v : Nat} {l : List Nat} (h : v ∈ l) : v ≤ listMax l :=
  mem_le_foldl_max h 0

theorem listMax_le {l : List Nat} {m : Nat} (h : ∀ v ∈ l, v ≤ m) : listMax l ≤ m :=
  foldl_max_le (Nat.zero_le m) h

theorem listMax_eq_of_mem_iff {l₁ l₂ : List Nat} (h : ∀ v, v ∈ l₁ ↔ v ∈ l₂) :
    listMax l₁ = listMax l₂ :=
  Nat.le_antisymm
    (listMax_le (fun v hv => le_listMax ((h v).mp hv)))
    (listMax_le (fun v hv => le_listMax ((h v).mpr hv)))

theorem mem_insertDescBy {α : Type} (key : α → Nat) (x a : α) (l : List α) :
    a ∈ insertDescBy key x l ↔ a = x ∨ a ∈ l := by
  induction l with
  | nil => simp [insertDescBy]
  | cons y ys ih =>
    rw [insertDescBy]
    by_cases hk : key y < key x
    · simp [hk]
    · simp only [hk, if_false, List.mem_cons, ih]
      tauto

theorem mem_sortDescBy {α : Type} (key : α → Nat) (a : α) (l : List α) :
    a ∈ sortDescBy key l ↔ a ∈ l := by
  induction l with
  | nil => simp [sortDescBy]
  | cons x xs ih => rw [sortDescBy, mem_insertDescBy, ih, List.mem_cons]

theorem stringExt {s t : String} (h : s.data = t.data) : s = t := by
  cases s; cases t; exact congrArg String.mk h

/-- A pattern written between two other pieces is found by `includes`. -/
theorem jsIncludes_concat (pre pat suf : String) :
    jsIncludes (pre ++ (pat ++ suf)) pat = true := by
  rw [jsIncludes, data_append, data_append]
  exact containsCL_append_left pre.data
    (containsCL_of_startsWithCL (startsWithCL_self pat.data suf.data))

theorem splitSlash_ne_nil (l : List Char) : splitSlash l ≠ [] := by
  cases l with
  | nil => simp [splitSlash]
  | cons c cs =>
    rw [splitSlash]
    split
    · simp
    · split <;> simp

theorem splitSlash_append_slash (a b : List Char) :
    splitSlash (a ++ '/' :: b) = splitSlash a ++ splitSlash b := by
  induction a with
  | nil => simp [splitSlash]
  | cons c cs ih =>
    rw [List.cons_append, splitSlash, splitSlash]
    by_cases hc : c = '/'
    · simp only [if_pos hc, ih, List.cons_append]
    · simp only [if_neg hc, ih]
      cases h : splitSlash cs with
      | nil => exact absurd h (splitSlash_ne_nil cs)
      | cons s rest => simp

theorem joinSegsCL_cons_cons (x y : List Char) (rest : List (List Char)) :
    joinSegsCL (x :: y :: rest) = x ++ '/' :: joinSegsCL (y :: rest) := rfl

theorem joinSegsCL_splitSlash (l : List Char) : joinSegsCL (splitSlash l) = l := by
  induction l with
  | nil => rfl
  | cons c cs ih =>
    rw [splitSlash]
    by_cases hc : c = '/'
    · rw [if_pos hc]
      cases h : splitSlash cs with
      | nil => exact absurd h (splitSlash_ne_nil cs)
      | cons s rest =>
        rw [h] at ih
        rw [joinSegsCL_cons_cons, hc]
        simpa using ih
    · rw [if_neg hc]
      cases h : splitSlash cs with
      | nil => exact absurd h (splitSlash_ne_nil cs)
      | cons s rest =>
        rw [h] at ih
        cases rest with
        | nil =>
          show c :: s = c :: cs
          have hs : s = cs := ih
          rw [hs]
        | cons s2 rest2 =>
          rw [joinSegsCL_cons_cons]
          rw [joinSegsCL_cons_cons] at ih
          simp [← ih]

theorem joinSegsCL_append_single {xs : List (List Char)} (h : xs ≠ []) (y : List Char) :
    joinSegsCL (xs ++ [y]) = joinSegsCL xs ++ '/' :: y := by
  induction xs with
  | nil => exact absurd rfl h
  | cons x rest ih =>
    cases rest with
    | nil => rfl
    | cons x2 rest2 =>
      show x ++ '/' :: joinSegsCL ((x2 :: rest2) ++ [y]) =
        joinSegsCL (x :: x2 :: rest2) ++ '/' :: y
      rw [ih (by simp), joinSegsCL_cons_cons]
      simp

theorem normStackCL_push {seg : List Char} (h : goodSegB seg = true)
    (stack : List (List Char)) : normStackCL stack seg = seg :: stack := by
  have h1 : seg ≠ [] := by intro hc; subst hc; simp [goodSegB] at h
  have h3 : seg ≠ ['.', '.'] := by intro hc; subst hc; simp [goodSegB] at h
  have h2 : seg ≠ ['.'] := by intro hc; subst hc; simp [goodSegB] at h
  rw [normStackCL.eq_def, if_neg (by tauto), if_neg h3]

theorem foldl_normStack_good {segs : List (List Char)}
    (h : ∀ seg ∈ segs, goodSegB seg = true) :
    ∀ acc, segs.foldl normStackCL acc = segs.reverse ++ acc := by
  induction segs with
  | nil => intro acc; simp
  | cons s rest ih =>
    intro acc
    rw [List.foldl_cons, normStackCL_push (h s (by simp)),
      ih (fun seg hm => h seg (List.mem_cons_of_mem _ hm))]
    simp

theorem normStackCL_skip_nil (stack : List (List Char)) : normStackCL stack [] = stack := by
  simp [normStackCL]

theorem cleanSegs_cases (segs : List (List Char)) (h : cleanSegsB segs = true) :
    (∀ seg ∈ segs, goodSegB seg = true) ∨
    (∃ init, segs = init ++ [[]] ∧ ∀ seg ∈ init, goodSegB seg = true) := by
  induction segs with
  | nil => exact Or.inl (by simp)
  | cons s rest ih =>
    cases rest with
    | nil =>
      rcases Bool.or_eq_true_iff.mp h with he | hg
      · refine Or.inr ⟨[], ?_, by simp⟩
        have : s = [] := by simpa [List.isEmpty_iff] using he
        simp [this]
      · exact Or.inl (by intro seg hm; simp at hm; subst hm; exact hg)
    | cons s2 rest2 =>
      rcases Bool.and_eq_true_iff.mp h with ⟨hg, hrest⟩
      rcases ih hrest with hall | ⟨init, heq, hinit⟩
      · refine Or.inl ?_
        intro seg hm
        rcases List.mem_cons.mp hm with h1 | h2
        · subst h1; exact hg
        · exact hall _ h2
      · refine Or.inr ⟨s :: init, by rw [List.cons_append, heq], ?_⟩
        intro seg hm
        rcases List.mem_cons.mp hm with h1 | h2
        · subst h1; exact hg
        · exact hinit _ h2

theorem endsWithCL_slash_exists {l : List Char}
    (h : endsWithCL l ['/'] = true) : ∃ x, l = x ++ ['/'] := by
  rw [endsWithCL] at h
  have h2 : startsWithCL l.reverse ['/'] = true := h
  cases hr : l.reverse with
  | nil => rw [hr] at h2; exact absurd h2 (by simp [startsWithCL])
  | cons c t =>
    rw [hr] at h2
    have hc : c = '/' := by
      by_contra hne
      rw [startsWithCL_head_ne (fun he => hne he.symm)] at h2
      exact Bool.false_ne_true h2
    refine ⟨t.reverse, ?_⟩
    have : l = (c :: t).reverse := by rw [← hr, List.reverse_reverse]
    rw [this, List.reverse_cons, hc]

theorem endsWithCL_append_slash (x : List Char) :
    endsWithCL (x ++ ['/']) ['/'] = true := by
  rw [endsWithCL, List.reverse_append]
  show startsWithCL ('/' :: x.reverse) ['/'] = true
  simp [startsWithCL]

theorem endsWithCL_append_last_ne {c : Char} (hc : c ≠ '/') (x pre : List Char) :
    endsWithCL (x ++ (pre ++ [c])) ['/'] = false := by
  rw [endsWithCL, List.reverse_append, List.reverse_append]
  show startsWithCL ((c :: pre.reverse) ++ x.reverse) ['/'] = false
  rw [List.cons_append]
  exact startsWithCL_head_ne (fun he => hc he.symm)

theorem posixNormalizeCL_ne_nil (l : List Char) : posixNormalizeCL l ≠ [] := by
  have h : ∀ w : List Char, (if w = [] then ['.'] else w) ≠ [] := by
    intro w
    split
    · simp
    · rename_i hw; exact hw
  exact h _

theorem pathJoin2_ne_empty (a b : String) : pathJoin2 a b ≠ "" := by
  rw [pathJoin2]
  split
  · decide
  · split
    · intro hc
      exact posixNormalizeCL_ne_nil b.data (congrArg String.data hc)
    · split
      · intro hc
        exact posixNormalizeCL_ne_nil a.data (congrArg String.data hc)
      · intro hc
        exact posixNormalizeCL_ne_nil _ (congrArg String.data hc)

theorem posixNormalizeCL_plain {l : List Char} {core : List (List Char)}
    (hhead : ¬ (l.head? = some '/'))
    (hfold : ((splitSlash l).foldl normStackCL []).reverse = core)
    (htrail : endsWithCL l ['/'] = false)
    (hne : joinSegsCL core ≠ []) :
    posixNormalizeCL l = joinSegsCL core := by
  rw [posixNormalizeCL]
  simp only [hfold, if_neg hhead, htrail, Bool.false_eq_true, false_and, if_false,
    if_neg hne]

theorem clean_not_abs {s : String} (hne : s ≠ "")
    (hclean : cleanSegsB (splitSlash s.data) = true) :
    ∃ c t, s.data = c :: t ∧ c ≠ '/' := by
  cases hd : s.data with
  | nil => exact absurd (stringExt (by rw [hd])) hne
  | cons c t =>
    refine ⟨c, t, rfl, ?_⟩
    intro hc
    subst hc
    have h1 : splitSlash s.data = [] :: splitSlash t := by rw [hd]; simp [splitSlash]
    cases htt : splitSlash t with
    | nil => exact splitSlash_ne_nil t htt
    | cons s0 rest =>
      rw [h1, htt] at hclean
      have h2 : (goodSegB [] && cleanSegsB (s0 :: rest)) = true := hclean
      simp [goodSegB] at h2

/-- Joining `index.html` onto a non-empty clean relative path: the `path.join`
normalization is the identity, so the join is plain concatenation (with a
connecting slash unless the path already ends in one). -/
theorem pathJoin2_clean (s : String) (hne : s ≠ "")
    (hclean : cleanSegsB (splitSlash s.data) = true) :
    pathJoin2 s "index.html" =
      if jsEndsWith s "/" = true then s ++ "index.html" else s ++ "/" ++ "index.html" := by
  have hih : ("index.html" : String) ≠ "" := by decide
  rw [pathJoin2, if_neg (fun hc => hne hc.1), if_neg hne, if_neg hih]
  obtain ⟨c, t, hst, hcne⟩ := clean_not_abs hne hclean
  have hhead : ¬ ((s.data ++ '/' :: "index.html".data).head? = some '/') := by
    rw [hst]
    simp [hcne]
  have htrail : endsWithCL (s.data ++ '/' :: "index.html".data) ['/'] = false := by
    have hsp : ('/' :: "index.html".data : List Char) =
        ('/' :: "index.htm".data) ++ ['l'] := by decide
    rw [hsp]
    exact endsWithCL_append_last_ne (by decide) _ _
  have hsplitIh : splitSlash ("index.html".data) = ["index.html".data] := by decide
  have hS : splitSlash (s.data ++ '/' :: "index.html".data)
      = splitSlash s.data ++ [("index.html".data : List Char)] := by
    rw [splitSlash_append_slash, hsplitIh]
  have hgoodIh : goodSegB ("index.html".data) = true := by decide
  have hsegs_ne : splitSlash s.data ≠ [] := splitSlash_ne_nil _
  rcases cleanSegs_cases _ hclean with hall | ⟨init, hinit_eq, hinit_good⟩
  · have hB : endsWithCL s.data ['/'] = false := by
      cases hb : endsWithCL s.data ['/'] with
      | false => rfl
      | true =>
        obtain ⟨x, hx⟩ := endsWithCL_slash_exists hb
        have hsp2 : splitSlash s.data = splitSlash x ++ [([] : List Char)] := by
          rw [hx, show (x ++ ['/'] : List Char) = x ++ '/' :: [] from rfl,
            splitSlash_append_slash]
          rfl
        have hmem : ([] : List Char) ∈ splitSlash s.data := by rw [hsp2]; simp
        have hg := hall _ hmem
        simp [goodSegB] at hg
    have hB' : ¬ (jsEndsWith s "/" = true) := by
      intro hb
      have hb2 : endsWithCL s.data ['/'] = true := hb
      rw [hB] at hb2
      exact absurd hb2 (by decide)
    have hall2 : ∀ seg ∈ splitSlash s.data ++ [("index.html".data : List Char)],
        goodSegB seg = true := by
      intro seg hm
      rcases List.mem_append.mp hm with h1 | h2
      · exact hall _ h1
      · simp at h2; subst h2; exact hgoodIh
    have hfold : ((splitSlash (s.data ++ '/' :: "index.html".data)).foldl
          normStackCL []).reverse
        = splitSlash s.data ++ [("index.html".data : List Char)] := by
      rw [hS, foldl_normStack_good hall2]
      simp
    have hjoin : joinSegsCL (splitSlash s.data ++ [("index.html".data : List Char)])
        = s.data ++ '/' :: "index.html".data := by
      rw [joinSegsCL_append_single hsegs_ne, joinSegsCL_splitSlash]
    have hnen : joinSegsCL (splitSlash s.data ++ [("index.html".data : List Char)]) ≠ [] := by
      rw [hjoin]; simp
    rw [posixNormalizeCL_plain hhead hfold htrail hnen, hjoin, if_neg hB']
    apply stringExt
    show s.data ++ '/' :: "index.html".data = (s ++ "/" ++ "index.html").data
    simp
  · have hinit_ne : init ≠ [] := by
      intro hc
      subst hc
      have h0 := joinSegsCL_splitSlash s.data
      rw [hinit_eq] at h0
      exact hne (stringExt (by rw [← h0]; rfl))
    have hsdata : s.data = joinSegsCL init ++ ['/'] := by
      have h0 := joinSegsCL_splitSlash s.data
      rw [hinit_eq, joinSegsCL_append_single hinit_ne] at h0
      exact h0.symm
    have hB : jsEndsWith s "/" = true := by
      show endsWithCL s.data ['/'] = true
      rw [hsdata]
      exact endsWithCL_append_slash _
    have hfold : ((splitSlash (s.data ++ '/' :: "index.html".data)).foldl
          normStackCL []).reverse
        = init ++ [("index.html".data : List Char)] := by
      rw [hS, hinit_eq, List.append_assoc, List.foldl_append,
        foldl_normStack_good hinit_good]
      simp [normStackCL_skip_nil, normStackCL_push hgoodIh]
    have hjoin : joinSegsCL (init ++ [("index.html".data : List Char)])
        = joinSegsCL init ++ '/' :: "index.html".data :=
      joinSegsCL_append_single hinit_ne _
    have hnen : joinSegsCL (init ++ [("index.html".data : List Char)]) ≠ [] := by
      rw [hjoin]; simp
    rw [posixNormalizeCL_plain hhead hfold htrail hnen, hjoin, if_pos hB]
    apply stringExt
    show joinSegsCL init ++ '/' :: "index.html".data = (s ++ "index.html").data
    rw [show (s ++ "index.html").data = s.data ++ "index.html".data from rfl, hsdata]
    simp

/-! Claim theorems. -/

/-- C3 (counterexample): the ten-minute whole-archive deadline rejects with a
message that does not contain the substring `timeout`, yet the catch block
classifies it as PARTIAL — so the claim's classification rule (`timeout`
substring, everything else FAILED) is not the code's rule. -/
theorem timeout_classification_counterexample :
    jsIncludes ArchiveService.archiveTimeoutMessage "timeout" = false ∧
    (ArchiveService.handleArchivingFailure sampleArchive sampleProgress
        ArchiveService.archiveTimeoutMessage 9).1.status = ArchiveStatus.partialStatus ∧
    (ArchiveService.handleArchivingFailure sampleArchive sampleProgress
        ArchiveService.archiveTimeoutMessage 9).1.status ≠ ArchiveStatus.failed := by
  decide

/-- C3 (amended): an exception escaping the crawl/race is classified by
message content — a message containing `timeout` or `timed out` gives status
PARTIAL and records a TIMEOUT_ERROR whose message contains `partially
completed due to timeout`; any other message gives status FAILED with a
NETWORK_ERROR; in both cases the final manifest (carrying the partial error
state) is what gets persisted. -/
theorem archiving_failure_classification (archive : Archive)
    (progress : ArchiveProgress) (message : String) (now : Nat) (store : List Archive) :
    (ArchiveService.isTimeoutMessage message = true →
      (ArchiveService.handleArchivingFailure archive progress message now).1.status =
        ArchiveStatus.partialStatus ∧
      (ArchiveService.handleArchivingFailure archive progress message now).2.errors =
        progress.errors ++ [⟨now, ErrorType.timeout_error,
          "Archive partially completed due to timeout: " ++ message, none, none, false⟩] ∧
      jsIncludes ("Archive partially completed due to timeout: " ++ message)
        "partially completed due to timeout" = true) ∧
    (ArchiveService.isTimeoutMessage message = false →
      (ArchiveService.handleArchivingFailure archive progress message now).1.status =
        ArchiveStatus.failed ∧
      (ArchiveService.handleArchivingFailure archive progress message now).2.errors =
        progress.errors ++ [⟨now, ErrorType.network_error,
          "Archive failed: " ++ message, none, none, false⟩]) ∧
    (ArchiveService.handleArchivingFailure archive progress message now).1.errors =
      (ArchiveService.handleArchivingFailure archive progress message now).2.errors ∧
    (ArchiveService.handleArchivingFailure archive progress message now).1 ∈
      ArchiveService.saveArchiveMetadata store
        (ArchiveService.handleArchivingFailure archive progress message now).1 := by
  have hsplit : ("Archive partially completed due to timeout: " ++ message) =
      "Archive " ++ ("partially completed due to timeout" ++ (": " ++ message)) := by
    have hlit : ("Archive partially completed due to timeout: " : String) =
        "Archive " ++ "partially completed due to timeout" ++ ": " := by decide
    rw [hlit, String.append_assoc, String.append_assoc]
  refine ⟨fun ht => ?_, fun hf => ?_, ?_, ?_⟩
  · refine ⟨?_, ?_, ?_⟩
    · simp [ArchiveService.handleArchivingFailure, ht]
    · simp [ArchiveService.handleArchivingFailure, ht]
    · rw [hsplit]; exact jsIncludes_concat _ _ _
  · exact ⟨by simp [ArchiveService.handleArchivingFailure, hf],
      by simp [ArchiveService.handleArchivingFailure, hf]⟩
  · simp [ArchiveService.handleArchivingFailure]
  · simp [ArchiveService.saveArchiveMetadata]

theorem archiving_failure_classification_witness :
    (ArchiveService.handleArchivingFailure sampleArchive sampleProgress
        "Network timeout" 9).1.status = ArchiveStatus.partialStatus ∧
    (ArchiveService.handleArchivingFailure sampleArchive sampleProgress
        "Connection refused" 9).1.status = ArchiveStatus.failed :=
  ⟨((archiving_failure_classification sampleArchive sampleProgress
      "Network timeout" 9 []).1 (by decide)).1,
   ((archiving_failure_classification sampleArchive sampleProgress
      "Connection refused" 9 []).2.1 (by decide)).1⟩

/-- C4: an asset whose download fails gets exactly one recoverable
STORAGE_ERROR, still receives the stored placeholder (non-empty `localPath`,
`size` equal to the placeholder's length), that single error reaches the
aggregated error list unchanged, and the success-path final status derived
from any error list containing it is PARTIAL, never FAILED. -/
theorem asset_download_failure_partial_outcome (rewriteCss : String → String)
    (asset : Asset) (msg : String) (now : Nat) (u : Url)
    (hu : parseUrl asset.originalUrl = some u) :
    (ArchiveService.downloadOneAsset rewriteCss asset (.failure msg) now).2 =
      [ArchiveService.downloadErrorRec asset.originalUrl msg now] ∧
    (ArchiveService.downloadErrorRec asset.originalUrl msg now).recoverable = true ∧
    (ArchiveService.downloadErrorRec asset.originalUrl msg now).type =
      ErrorType.storage_error ∧
    (ArchiveService.downloadOneAsset rewriteCss asset (.failure msg) now).1.localPath ≠ "" ∧
    (ArchiveService.downloadOneAsset rewriteCss asset (.failure msg) now).1.size =
      (ArchiveService.fallbackContentFor asset.originalUrl).length ∧
    (∀ errs1 errs2 : List ArchiveErrorRec,
      ArchiveService.deriveFinalStatus
        (errs1 ++ (ArchiveService.downloadOneAsset rewriteCss asset (.failure msg) now).2
          ++ errs2) = ArchiveStatus.partialStatus) ∧
    (∀ (moreAssets : List Asset) (moreOutcomes : List ArchiveService.DownloadOutcome),
      (ArchiveService.downloadAssets rewriteCss (asset :: moreAssets)
          ((.failure msg) :: moreOutcomes) now).2 =
        (ArchiveService.downloadOneAsset rewriteCss asset (.failure msg) now).2 ++
          (ArchiveService.downloadAssets rewriteCss moreAssets moreOutcomes now).2) := by
  have hsave : FileService.saveAssetPath asset.originalUrl asset.type =
      some (FileService.assetRelativePathOfUrl u asset.type) := by
    rw [FileService.saveAssetPath, hu]; rfl
  have hne : FileService.assetRelativePathOfUrl u asset.type ≠ "" := by
    rw [FileService.assetRelativePathOfUrl, pathJoin3]
    exact pathJoin2_ne_empty _ _
  refine ⟨?_, rfl, rfl, ?_, ?_, ?_, ?_⟩
  · simp [ArchiveService.downloadOneAsset, hsave]
  · simpa [ArchiveService.downloadOneAsset, hsave] using hne
  · simp [ArchiveService.downloadOneAsset, hsave, ArchiveService.fallbackContentFor]
  · intro errs1 errs2
    simp [ArchiveService.downloadOneAsset, hsave, ArchiveService.deriveFinalStatus]
  · intro moreAssets moreOutcomes
    simp [ArchiveService.downloadAssets]

theorem asset_download_failure_partial_outcome_witness :
    (ArchiveService.downloadOneAsset id c4Asset (.failure "Storage full") 3).2 =
      [ArchiveService.downloadErrorRec "https://example.com/bad-asset.css"
        "Storage full" 3] ∧
    (ArchiveService.downloadOneAsset id c4Asset (.failure "Storage full") 3).1.localPath ≠ "" :=
  ⟨(asset_download_failure_partial_outcome id c4Asset "Storage full" 3
      ⟨"https", "example.com", "", "/bad-asset.css", none, none⟩ (by decide)).1,
   (asset_download_failure_partial_outcome id c4Asset "Storage full" 3
      ⟨"https", "example.com", "", "/bad-asset.css", none, none⟩ (by decide)).2.2.2.1⟩

/-- C5: whenever at least cap-many registry entries are IN_PROGRESS,
`createArchive` of a well-formed URL is rejected with the distinguishable
concurrency-cap error; the rejection happens before any record, progress
entry or storage is created, so only the error is returned. -/
theorem createArchive_concurrency_cap_reject (st : ArchiveService.State)
    (url nu archiveId : String) (now : Nat)
    (hnorm : UrlUtils.normalizeUrl url = some nu)
    (hdom : UrlUtils.extractDomain nu ≠ none)
    (hcap : st.maxConcurrentArchives ≤
      st.activeArchives.countP (fun p => p.status == ArchiveStatus.in_progress)) :
    ArchiveService.createArchive st url archiveId now =
      Except.error ("Maximum concurrent archives limit reached (" ++
        Nat.repr st.maxConcurrentArchives ++
        "). Please wait for existing archives to complete.") ∧
    jsStartsWith ("Maximum concurrent archives limit reached (" ++
        Nat.repr st.maxConcurrentArchives ++
        "). Please wait for existing archives to complete.")
      "Maximum concurrent archives limit reached" = true := by
  have hlen : st.maxConcurrentArchives ≤ st.activeArchives.length :=
    le_trans hcap (List.countP_le_length _)
  constructor
  · rw [ArchiveService.createArchive, hnorm]
    cases hd : UrlUtils.extractDomain nu with
    | none => exact absurd hd hdom
    | some d => simp [hd, hlen]
  · rw [jsStartsWith, data_append, data_append]
    exact startsWithCL_append_right
      (startsWithCL_append_right (by decide) (Nat.repr st.maxConcurrentArchives).data) _

theorem createArchive_concurrency_cap_reject_witness :
    ArchiveService.createArchive c5State "https://example.com" "a9" 7 =
      Except.error ("Maximum concurrent archives limit reached (" ++
        Nat.repr c5State.maxConcurrentArchives ++
        "). Please wait for existing archives to complete.") :=
  (createArchive_concurrency_cap_reject c5State "https://example.com"
    "https://example.com/" "a9" 7 (by decide) (by decide) (by decide)).1

/-- C6 (counterexample): in the grace period the archive has reached the
terminal status COMPLETED both in its progress record and in the persisted
manifest, yet `deleteArchive` still fails with the in-progress error, because
the check is membership in the registry, not the status. -/
theorem delete_rejected_during_grace_period :
    (∀ p ∈ graceState.activeArchives, p.status = ArchiveStatus.completed) ∧
    (∀ a ∈ graceState.store, a.status = ArchiveStatus.completed) ∧
    ArchiveService.deleteArchive graceState "a1" =
      Except.error "Cannot delete archive a1: archiving in progress" := by
  decide

/-- C6 (amended): `deleteArchive` fails with the distinguishable in-progress
error exactly while the id still has an entry in the active registry — during
IN_PROGRESS, and also during the one-minute grace period after a terminal
status is reached; once the entry is retired, deletion succeeds and removes
everything stored under the id. -/
theorem deleteArchive_active_entry_rule (st : ArchiveService.State) (archiveId : String) :
    ((∃ p, p ∈ st.activeArchives ∧ p.archiveId = archiveId) →
      ArchiveService.deleteArchive st archiveId =
        Except.error ("Cannot delete archive " ++ archiveId ++ ": archiving in progress") ∧
      jsIncludes ("Cannot delete archive " ++ archiveId ++ ": archiving in progress")
        "in progress" = true) ∧
    ((∀ p ∈ st.activeArchives, p.archiveId ≠ archiveId) →
      ArchiveService.deleteArchive st archiveId =
        Except.ok { st with store := st.store.filter (fun a => a.id ≠ archiveId) } ∧
      ∀ b ∈ st.store.filter (fun a => a.id ≠ archiveId), b.id ≠ archiveId) := by
  constructor
  · rintro ⟨p, hp, hid⟩
    have hfind : (st.activeArchives.find? (fun p => p.archiveId == archiveId)).isSome := by
      rw [List.find?_isSome]
      exact ⟨p, hp, by simp [hid]⟩
    constructor
    · rw [ArchiveService.deleteArchive, if_pos hfind]
    · have hin : jsIncludes (": archiving " ++ ("in progress" ++ "")) "in progress" = true :=
        jsIncludes_concat _ _ _
      have hx : (": archiving " ++ ("in progress" ++ "") : String) =
          ": archiving in progress" := by decide
      rw [hx] at hin
      rw [jsIncludes, data_append, data_append]
      rw [jsIncludes] at hin
      exact containsCL_append_left _ hin
  · intro hall
    have hfind : st.activeArchives.find? (fun p => p.archiveId == archiveId) = none := by
      rw [List.find?_eq_none]
      intro p hp
      simpa using hall p hp
    constructor
    · rw [ArchiveService.deleteArchive, hfind]; rfl
    · intro b hb
      exact of_decide_eq_true (List.mem_filter.mp hb).2

theorem deleteArchive_active_entry_rule_witness :
    (ArchiveService.deleteArchive graceState "a1" =
      Except.error "Cannot delete archive a1: archiving in progress") ∧
    (ArchiveService.deleteArchive { graceState with activeArchives := [] } "a1" =
      Except.ok { graceState with activeArchives := [], store := [] }) := by
  constructor
  · have h := ((deleteArchive_active_entry_rule graceState "a1").1
      ⟨{ sampleProgress with status := ArchiveStatus.completed }, by decide, by decide⟩).1
    rw [h]; decide
  · have h := ((deleteArchive_active_entry_rule
      { graceState with activeArchives := [] } "a1").2 (by decide)).1
    rw [h]; decide

/-- `getLatestVersionNumber` equals the maximum stored version among archives
whose normalized URL matches (0 when none), for an idempotently-normalized
input. -/
theorem getLatestVersionNumber_eq (store : List Archive) (nu : String)
    (hidem : UrlUtils.normalizeUrl nu = some nu) :
    ArchiveService.getLatestVersionNumber store nu =
      listMax ((store.filter
        (fun b => UrlUtils.normalizeUrl b.url == some nu)).map (fun b => b.version)) := by
  rw [ArchiveService.getLatestVersionNumber, ArchiveService.getArchiveVersions, hidem]
  have hmem : ∀ v,
      (v ∈ (sortDescBy (fun a => a.version) ((ArchiveService.getArchives store).filter
          (fun a => UrlUtils.normalizeUrl a.url == some nu))).map (fun b => b.version)) ↔
      v ∈ (store.filter
          (fun b => UrlUtils.normalizeUrl b.url == some nu)).map (fun b => b.version) := by
    intro v
    simp [List.mem_map, mem_sortDescBy, List.mem_filter, ArchiveService.getArchives,
      mem_sortDescBy]
  have hstep : ∀ L : List Archive,
      (if L.length > 0 then listMax (L.map (fun v => v.version)) else 0) =
        listMax (L.map (fun v => v.version)) := by
    intro L
    cases L with
    | nil => simp [listMax]
    | cons x xs => simp
  dsimp only
  rw [hstep]
  exact listMax_eq_of_mem_iff hmem

/-- C1 (amended): a successful `createArchive` assigns
`version = 1 + max(versions of the archives currently stored for the
normalized URL)` (so 1 when none are stored), which is strictly greater than
every version still stored for that URL.  The basis is the *current* store:
deleting a non-maximal version leaves the next number unchanged, but deleting
the stored maximum makes its number reusable (see the counterexample). -/
theorem createArchive_version_rule (st : ArchiveService.State)
    (url nu archiveId : String) (now : Nat)
    (hnorm : UrlUtils.normalizeUrl url = some nu)
    (hidem : UrlUtils.normalizeUrl nu = some nu)
    (hvalid : UrlUtils.isValidUrl nu = true)
    (hdom : UrlUtils.extractDomain nu ≠ none)
    (hact : st.activeArchives.length < st.maxConcurrentArchives)
    (hdup : st.activeArchives.find?
      (fun p => p.url == nu && p.status == ArchiveStatus.in_progress) = none) :
    ∃ st2 a, ArchiveService.createArchive st url archiveId now = Except.ok (st2, a) ∧
      a.version = listMax ((st.store.filter
        (fun b => UrlUtils.normalizeUrl b.url == some nu)).map (fun b => b.version)) + 1 ∧
      (∀ b ∈ st.store, UrlUtils.normalizeUrl b.url = some nu → b.version < a.version) := by
  rw [ArchiveService.createArchive, hnorm]
  cases hd : UrlUtils.extractDomain nu with
  | none => exact absurd hd hdom
  | some d =>
    have hnotle : ¬ (st.maxConcurrentArchives ≤ st.activeArchives.length) :=
      Nat.not_le.mpr hact
    simp only [hnotle, if_false, hdup, Validation.createArchiveRecord, hvalid,
      Bool.true_eq_false, if_false, hd]
    refine ⟨_, _, rfl, ?_, ?_⟩
    · simp [getLatestVersionNumber_eq st.store nu hidem]
    · intro b hb hnb
      have hvmem : b.version ∈ (st.store.filter
          (fun b => UrlUtils.normalizeUrl b.url == some nu)).map (fun b => b.version) :=
        List.mem_map.mpr ⟨b, List.mem_filter.mpr ⟨hb, by simp [hnb]⟩, rfl⟩
      have hle := le_listMax hvmem
      simp only [getLatestVersionNumber_eq st.store nu hidem]
      exact Nat.lt_succ_of_le hle

/-- C1 (counterexample): deleting the latest (here: the only) version, which
has version number 1, and re-creating an archive for the same URL yields
version 1 again — the deleted latest version's number is reused, not
preserved. -/
theorem version_reuse_after_latest_delete :
    graceArchive.version = 1 ∧ c1RecreatedVersion = some 1 := by
  decide

theorem createArchive_version_rule_witness :
    (match ArchiveService.createArchive c1Start "https://example.com" "a2" 5 with
     | .ok (_, a) => some a.version
     | .error _ => none) = some 2 := by
  obtain ⟨st2, a, hok, hv, _⟩ := createArchive_version_rule c1Start "https://example.com"
    "https://example.com/" "a2" 5 (by decide) (by decide) (by decide) (by decide)
    (by decide) (by decide)
  rw [hok]
  show some a.version = some 2
  rw [hv]
  decide

/-- An absolute `http(s)://...` URL is never one of the special schemes the
rewriter passes through verbatim. -/
theorem isSpecialUrl_false_of_http (url : String)
    (h : jsStartsWith url "http://" = true ∨ jsStartsWith url "https://" = true) :
    UrlRewriter.isSpecialUrl url = false := by
  have hh : ∃ t, url.data = 'h' :: t := by
    rcases h with h | h
    · exact startsWithCL_head h
    · exact startsWithCL_head h
  obtain ⟨t, ht⟩ := hh
  have hws : jsWhitespaceChar 'h' = false := by decide
  obtain ⟨r, hr⟩ := trimCL_cons t hws
  have hdata : (jsToLower (jsTrim url)).data = 'h' :: lowerCL r := by
    rw [jsToLower, jsTrim]
    show lowerCL (trimCL url.data) = 'h' :: lowerCL r
    rw [ht, hr, lowerCL, List.map_cons]
    rw [show lowerChar 'h' = 'h' from by decide]
    rfl
  have hne : (jsToLower (jsTrim url) == "") = false := by
    apply beq_eq_false_iff_ne.mpr
    intro he
    rw [he] at hdata
    exact (List.cons_ne_nil 'h' (lowerCL r)) hdata.symm
  rw [UrlRewriter.isSpecialUrl]
  have p1 : jsStartsWith (jsToLower (jsTrim url)) "data:" = false := by
    rw [jsStartsWith, hdata]; exact startsWithCL_head_ne (by decide)
  have p2 : jsStartsWith (jsToLower (jsTrim url)) "blob:" = false := by
    rw [jsStartsWith, hdata]; exact startsWithCL_head_ne (by decide)
  have p3 : jsStartsWith (jsToLower (jsTrim url)) "javascript:" = false := by
    rw [jsStartsWith, hdata]; exact startsWithCL_head_ne (by decide)
  have p4 : jsStartsWith (jsToLower (jsTrim url)) "mailto:" = false := by
    rw [jsStartsWith, hdata]; exact startsWithCL_head_ne (by decide)
  have p5 : jsStartsWith (jsToLower (jsTrim url)) "tel:" = false := by
    rw [jsStartsWith, hdata]; exact startsWithCL_head_ne (by decide)
  have p6 : jsStartsWith (jsToLower (jsTrim url)) "#" = false := by
    rw [jsStartsWith, hdata]; exact startsWithCL_head_ne (by decide)
  simp [p1, p2, p3, p4, p5, p6, hne]

/-- An absolute `http(s)://...` URL is non-empty and has a non-empty trim. -/
theorem http_url_not_blank (url : String)
    (h : jsStartsWith url "http://" = true ∨ jsStartsWith url "https://" = true) :
    ¬ (url = "" ∨ jsTrim url = "") := by
  have hh : ∃ t, url.data = 'h' :: t := by
    rcases h with h | h
    · exact startsWithCL_head h
    · exact startsWithCL_head h
  obtain ⟨t, ht⟩ := hh
  have hws : jsWhitespaceChar 'h' = false := by decide
  obtain ⟨r, hr⟩ := trimCL_cons t hws
  rintro (he | he)
  · rw [he] at ht; exact (List.cons_ne_nil 'h' t) ht.symm
  · have hd2 : (jsTrim url).data = 'h' :: r := by
      rw [jsTrim]; show trimCL url.data = _; rw [ht, hr]
    rw [he] at hd2
    exact (List.cons_ne_nil 'h' r) hd2.symm

/-- C7: a URL with a registered asset mapping is always rewritten to
`{archiveBasePath}/{archiveId}/content/{mapping.localPath}`, in page-link mode
and in asset mode alike. -/
theorem rewriteUrl_mapping_wins (opts : UrlRewriteOptions)
    (mappings : List AssetPathMapping) (url : String) (mp : AssetPathMapping)
    (isPageLink : Bool)
    (habs : jsStartsWith url "http://" = true ∨ jsStartsWith url "https://" = true)
    (_hsame : UrlRewriter.isSameDomain opts url = true)
    (hmap : findMapping mappings url = some mp) :
    UrlRewriter.rewriteUrl opts mappings url isPageLink =
      opts.archiveBasePath ++ "/" ++ opts.archiveId ++ "/content/" ++ mp.localPath := by
  have hres : UrlRewriter.resolveUrl opts url = url := by
    rw [UrlRewriter.resolveUrl]
    rcases habs with h | h
    · rw [h]; simp
    · rw [h]; simp
  rw [UrlRewriter.rewriteUrl, if_neg (http_url_not_blank url habs)]
  rw [isSpecialUrl_false_of_http url habs]
  simp only [Bool.false_eq_true, if_false, hres, hmap]

theorem rewriteUrl_mapping_wins_witness :
    UrlRewriter.rewriteUrl c7Opts [c7Mapping] "https://example.com/style.css" true =
      "/api/archives/a1/content/assets/css/style.css" := by
  have h := rewriteUrl_mapping_wins c7Opts [c7Mapping] "https://example.com/style.css"
    c7Mapping true (Or.inr (by decide)) (by decide) (by decide)
  rw [h]; decide

/-- C10: `rewriteUrl` totalizes every input — special-scheme or blank inputs
come back verbatim, and when the resolved string parses as no URL and has no
registered mapping, the original input comes back unchanged (the function is
total in the embedding, mirroring the source where every helper catches its
own exceptions). -/
theorem rewriteUrl_total_fallback (opts : UrlRewriteOptions)
    (mappings : List AssetPathMapping) (url : String) (isPageLink : Bool) :
    ((url = "" ∨ UrlRewriter.isSpecialUrl url = true) →
      UrlRewriter.rewriteUrl opts mappings url isPageLink = url) ∧
    (parseUrl (UrlRewriter.resolveUrl opts url) = none →
      findMapping mappings (UrlRewriter.resolveUrl opts url) = none →
      UrlRewriter.rewriteUrl opts mappings url isPageLink = url) := by
  constructor
  · intro h
    rw [UrlRewriter.rewriteUrl]
    by_cases hb : url = "" ∨ jsTrim url = ""
    · rw [if_pos hb]
    · rw [if_neg hb]
      rcases h with h | h
      · exact absurd (Or.inl h) hb
      · rw [h]; simp
  · intro hparse hmap
    rw [UrlRewriter.rewriteUrl]
    by_cases hb : url = "" ∨ jsTrim url = ""
    · rw [if_pos hb]
    · rw [if_neg hb]
      by_cases hs : UrlRewriter.isSpecialUrl url = true
      · rw [hs]; simp
      · rw [Bool.not_eq_true] at hs
        rw [hs]
        have hdom : UrlRewriter.isSameDomain opts (UrlRewriter.resolveUrl opts url) = false := by
          rw [UrlRewriter.isSameDomain, hparse]
        simp only [Bool.false_eq_true, if_false, hmap, hdom, Bool.and_false,
          Bool.false_and, and_false]

theorem rewriteUrl_total_fallback_witness :
    UrlRewriter.rewriteUrl c7Opts [] "#top" false = "#top" ∧
    UrlRewriter.rewriteUrl (UrlRewriter.mkOptions "a1" "not a url") [] "http//broken" false =
      "http//broken" :=
  ⟨(rewriteUrl_total_fallback c7Opts [] "#top" false).1 (Or.inr (by decide)),
   (rewriteUrl_total_fallback (UrlRewriter.mkOptions "a1" "not a url") []
     "http//broken" false).2 (by decide) (by decide)⟩

/-- When the detected type, the corrected extension and the sub-directory maps
all line up, the file-service storage path and the rewriter's generated path
coincide. -/
theorem assetPaths_agree_core (u : Url) (t : AssetType) (e : String)
    (hsub : FileService.getAssetSubDirectory t = UrlRewriter.getAssetSubDirectory t)
    (hdet : UrlRewriter.detectAssetType (UrlRewriter.fileNameOfPathname u.pathname)
      u.pathname = t)
    (hcorr : FileService.getCorrectExtension t
      (UrlRewriter.fileNameOfPathname u.pathname) = e)
    (he : pathExtname (UrlRewriter.fileNameOfPathname u.pathname) = e)
    (hlow : jsToLower e = e) :
    FileService.assetRelativePathOfUrl u t = UrlRewriter.generateAssetPathOfUrl u := by
  rw [FileService.assetRelativePathOfUrl, UrlRewriter.generateAssetPathOfUrl,
    FileService.generateAssetFileNameOfUrl]
  by_cases hq : u.search ≠ ""
  · simp only [hdet, hsub, hcorr, he, if_pos hq]
  · simp only [hdet, hsub, hcorr, he, hlow, if_neg hq]
    simp

/-- C2 (amended): the write-time path under which `FileService.saveAsset`
stores an asset and the read-time path `UrlRewriter.generateAssetPath` derives
from the same URL agree whenever the asset's declared type matches the URL
file name's lower-case extension (type CSS with `.css`, JAVASCRIPT with `.js`,
IMAGE with a recognized image extension, FONT with a recognized font
extension).  Outside this regime they can differ: the file service corrects
the extension and files HTML under `assets/other`, while the rewriter
re-detects the type from the extension alone and files HTML under
`assets/pages` (see the counterexample). -/
theorem asset_path_write_read_agree (url : String) (u : Url) (t : AssetType) (e : String)
    (hu : parseUrl url = some u)
    (hc : extTypeCompat t e)
    (he : pathExtname (UrlRewriter.fileNameOfPathname u.pathname) = e) :
    FileService.saveAssetPath url t = some (UrlRewriter.generateAssetPath url) := by
  have hcore : FileService.assetRelativePathOfUrl u t =
      UrlRewriter.generateAssetPathOfUrl u := by
    rcases hc with ⟨rfl, rfl⟩ | ⟨rfl, rfl⟩ | ⟨rfl, hmem⟩ | ⟨rfl, hmem⟩
    · refine assetPaths_agree_core u _ _ rfl ?_ (by rfl) he (by decide)
      have hv : jsToLower ".css" = ".css" := by decide
      simp [UrlRewriter.detectAssetType, he, hv]
    · refine assetPaths_agree_core u _ _ rfl ?_ (by rfl) he (by decide)
      have hv : jsToLower ".js" = ".js" := by decide
      simp [UrlRewriter.detectAssetType, he, hv]
    · fin_cases hmem <;>
        refine assetPaths_agree_core u _ _ rfl
          (by simp [UrlRewriter.detectAssetType, he]; decide)
          (by simp [FileService.getCorrectExtension, he]; decide) he (by decide)
    · fin_cases hmem <;>
        refine assetPaths_agree_core u _ _ rfl
          (by simp [UrlRewriter.detectAssetType, he]; decide)
          (by simp [FileService.getCorrectExtension, he]; decide) he (by decide)
  simp only [FileService.saveAssetPath, UrlRewriter.generateAssetPath, hu, Option.map]
  rw [hcore]

/-- C2 (counterexample): for a crawl-captured extensionless image URL the
stored path is `assets/images/photo.png` but the read-time rewrite resolves to
`assets/other/photo`; for an HTML asset the two sides use different
sub-directories (`assets/other` vs `assets/pages`). -/
theorem asset_path_write_read_divergence :
    FileService.saveAssetPath "https://example.com/photo" AssetType.image =
      some "assets/images/photo.png" ∧
    UrlRewriter.generateAssetPath "https://example.com/photo" = "assets/other/photo" ∧
    FileService.saveAssetPath "https://example.com/page.html" AssetType.html =
      some "assets/other/page.html" ∧
    UrlRewriter.generateAssetPath "https://example.com/page.html" =
      "assets/pages/page.html" := by
  decide

theorem asset_path_write_read_agree_witness :
    FileService.saveAssetPath "https://example.com/styles/main.css" AssetType.css =
      some "assets/css/main.css" := by
  have h := asset_path_write_read_agree "https://example.com/styles/main.css"
    ⟨"https", "example.com", "", "/styles/main.css", none, none⟩ AssetType.css ".css"
    (by decide) (Or.inl ⟨rfl, rfl⟩) (by decide)
  rw [h]; decide

/-- On slash-led pathnames whose stripped path has plain segments (no empty or
dot segments; a trailing slash allowed), the rewriter's page path is exactly
the spec's four-case rule.  On other pathnames `path.join` normalizes while
the rule concatenates, so coincidence genuinely fails there (e.g. `/a//`). -/
theorem generatePagePath_spec_core (p : String)
    (h1 : jsStartsWith p "/" = true)
    (hclean : cleanSegsB (splitSlash (strDrop p 1).data) = true) :
    UrlRewriter.generatePagePathOfPathname p = SpecRule.pagePath p := by
  rw [UrlRewriter.generatePagePathOfPathname, SpecRule.pagePath]
  simp only [h1, if_true]
  by_cases hA : strDrop p 1 = ""
  · simp [hA]
  · have hsne : strDrop p 1 ≠ "/" := by
      intro hc
      rw [hc] at hclean
      have h2 : cleanSegsB (splitSlash ("/" : String).data) = false := by decide
      rw [h2] at hclean
      exact absurd hclean (by decide)
    have hcond : ¬ (strDrop p 1 = "" ∨ strDrop p 1 = "/") := by
      rintro (h | h)
      · exact hA h
      · exact hsne h
    rw [if_neg hcond, if_neg hA]
    by_cases hB : jsEndsWith (strDrop p 1) "/" = true
    · rw [if_pos hB, if_pos hB, pathJoin2_clean _ hA hclean, if_pos hB]
    · rw [if_neg hB, if_neg hB]
      by_cases hC : pathExtname (strDrop p 1) = ""
      · rw [if_pos hC, if_pos hC, pathJoin2_clean _ hA hclean, if_neg hB]
        rw [String.append_assoc]
        have hx : ("/" ++ "index.html" : String) = "/index.html" := by decide
        rw [hx]
      · rw [if_neg hC, if_neg hC]

/-- C8 (amended): the spec's four-case page-path rule does govern the
rewriter's `generatePagePath` on parsed URLs whose slash-led pathname has
plain segments (no empty or dot segments, a trailing slash allowed — the
shape of browser-normalized paths without doubled slashes; elsewhere
`path.join`'s normalization departs from the literal rule), but it does not
govern the crawler's write-time `page.path`: the crawler treats any dot
anywhere in the path as an extension, so the two sides disagree, e.g. on
`/v1.2/docs` (see the counterexample). -/
theorem rewriter_page_path_follows_spec_rule (url : String) (u : Url)
    (hu : parseUrl url = some u)
    (h1 : jsStartsWith u.pathname "/" = true)
    (hclean : cleanSegsB (splitSlash (strDrop u.pathname 1).data) = true) :
    UrlRewriter.generatePagePath url = SpecRule.pagePath u.pathname := by
  simp only [UrlRewriter.generatePagePath, hu]
  exact generatePagePath_spec_core u.pathname h1 hclean

/-- C8 (counterexample): the crawler stores `/v1.2/docs` under `v1.2/docs`,
while the spec rule and the rewriter's page-link target for the same URL are
`v1.2/docs/index.html` — the two path generators do not follow one rule. -/
theorem crawler_page_path_rule_divergence :
    CrawlerService.generatePagePath "https://example.com/v1.2/docs" = "v1.2/docs" ∧
    UrlRewriter.generatePagePath "https://example.com/v1.2/docs" =
      "v1.2/docs/index.html" ∧
    SpecRule.pagePath "/v1.2/docs" = "v1.2/docs/index.html" := by
  decide

theorem rewriter_page_path_follows_spec_rule_witness :
    UrlRewriter.generatePagePath "https://example.com/about" = SpecRule.pagePath "/about" :=
  rewriter_page_path_follows_spec_rule "https://example.com/about"
    ⟨"https", "example.com", "", "/about", none, none⟩ (by decide) (by decide)
    (by decide)

/-- Invariant of the crawl loop: the fetch log stays duplicate-free and inside
the visited set, and the page count stays within `maxPages`. -/
theorem crawlLoop_inv (fetch : CrawlerService.FetchOracle) (maxPages : Nat)
    (domain : String) (now : Nat) (fuel : Nat) :
    ∀ st : CrawlerService.CrawlState,
      st.fetchLog.Nodup →
      (∀ x ∈ st.fetchLog, x ∈ st.visitedUrls) →
      st.crawledPages.length ≤ maxPages →
      (CrawlerService.crawlLoop fetch maxPages domain now fuel st).fetchLog.Nodup ∧
      (∀ x ∈ (CrawlerService.crawlLoop fetch maxPages domain now fuel st).fetchLog,
        x ∈ (CrawlerService.crawlLoop fetch maxPages domain now fuel st).visitedUrls) ∧
      (CrawlerService.crawlLoop fetch maxPages domain now fuel st).crawledPages.length ≤
        maxPages := by
  induction fuel with
  | zero =>
    intro st h1 h2 h3
    rw [CrawlerService.crawlLoop]
    exact ⟨h1, h2, h3⟩
  | succ fuel ih =>
    intro st h1 h2 h3
    rw [CrawlerService.crawlLoop]
    cases hq : st.urlQueue with
    | nil => exact ⟨h1, h2, h3⟩
    | cons currentUrl rest =>
      dsimp only
      by_cases hmax : maxPages ≤ st.crawledPages.length
      · rw [if_pos hmax]
        exact ⟨h1, h2, h3⟩
      · rw [if_neg hmax]
        by_cases hvis : st.visitedUrls.contains currentUrl = true
        · rw [if_pos hvis]
          exact ih { st with urlQueue := rest } h1 h2 h3
        · rw [if_neg hvis]
          have hnotmem : currentUrl ∉ st.visitedUrls := by
            simpa using hvis
          have hlognot : currentUrl ∉ st.fetchLog := fun hx => hnotmem (h2 _ hx)
          have hlog1 : (st.fetchLog ++ [currentUrl]).Nodup := by
            simp [List.nodup_append, h1, hlognot]
          have hsub1 : ∀ x ∈ st.fetchLog ++ [currentUrl],
              x ∈ st.visitedUrls ++ [currentUrl] := by
            intro x hx
            rcases List.mem_append.mp hx with hx | hx
            · exact List.mem_append_left _ (h2 _ hx)
            · exact List.mem_append_right _ hx
          have hlt : st.crawledPages.length < maxPages := Nat.not_le.mp hmax
          cases hf : fetch currentUrl with
          | some d =>
            dsimp only
            by_cases hp : (st.crawledPages ++
                [CrawlerService.pageOfFetch currentUrl now d]).length < maxPages
            · rw [if_pos hp]
              exact ih _ hlog1 hsub1 (Nat.le_of_lt hp)
            · rw [if_neg hp]
              refine ih _ hlog1 hsub1 ?_
              simpa using Nat.succ_le_of_lt hlt
          | none =>
            exact ih _ hlog1 hsub1 (Nat.le_of_lt hlt)

/-- C9: in every `crawlSite` run no URL is fetched twice (the fetch log is
duplicate-free, so cyclic links cause no unbounded revisits) and the returned
page list never exceeds `maxPages`. -/
theorem crawl_no_refetch_and_page_bound (fetch : CrawlerService.FetchOracle)
    (fuel : Nat) (url : String) (maxPages now : Nat) :
    (CrawlerService.crawlSite fetch fuel url maxPages now).elim True
      (fun r => r.fetchLog.Nodup ∧ r.pages.length ≤ maxPages) := by
  rw [CrawlerService.crawlSite]
  cases hn : UrlUtils.normalizeUrl url with
  | none => exact trivial
  | some nu =>
    dsimp only
    cases hd : UrlUtils.extractDomain nu with
    | none => exact trivial
    | some domain =>
      dsimp only
      have h := crawlLoop_inv fetch maxPages domain now fuel
        { visitedUrls := []
          crawledPages := []
          errors := []
          urlQueue := [nu]
          fetchLog := [] } (by simp) (by simp) (by simp)
      exact ⟨h.1, h.2.2⟩

end WebArchiver
